import Mathlib

/-!
Verification model of the texpresso BC1-BC5 block compression codec.

Every definition in this file is a shallow embedding of the corresponding
Rust item from the repository (file and function named in each doc comment).
Machine integers (`u8`, `u16`, `u32`, `i32`) are modelled as `Nat`/`Int`
with explicit `% 2^w` wherever the source truncates.  The source's `f32`
arithmetic is modelled exactly by rational numbers (`Frac` below): every
`f32` operation of the hot path (add, sub, mul, div, min, max, trunc,
round, comparison) is an exact rational operation here, `f32::sqrt` is a
fixed-precision rational approximation, and the special constants
`f32::MAX` / `f32::EPSILON` take their exact IEEE values.  Division by
zero yields 0 (the one place the source can divide by zero, the cluster
fitter's `reciprocal`, produces a candidate that is identical under both
conventions, see `ClusterFit` below).
-/

set_option maxRecDepth 40000

/-- Exact rational numbers used to model the source's `f32` values.
`n` is the numerator, `d` the (positive) denominator.  All operations
below return values in reduced form with positive denominator, so the
representation of every reachable value is canonical. -/
structure Frac where
  n : ℤ
  d : ℕ
deriving DecidableEq

/-- Integer division of `n` by a natural `g` that is expected to divide it
(rounds toward zero, which is exact division on all uses). -/
def intDivNat (n : ℤ) (g : ℕ) : ℤ :=
  if 0 ≤ n then (n.toNat / g : ℕ) else -((-n).toNat / g : ℕ)

/-- Build the canonical representative of `n / d`. -/
def Frac.reduce (n : ℤ) (d : ℕ) : Frac :=
  let g := Nat.gcd n.natAbs d
  if g = 0 then ⟨0, 1⟩ else ⟨intDivNat n g, d / g⟩

def Frac.add (a b : Frac) : Frac := Frac.reduce (a.n * b.d + b.n * a.d) (a.d * b.d)

def Frac.sub (a b : Frac) : Frac := Frac.reduce (a.n * b.d - b.n * a.d) (a.d * b.d)

def Frac.mul (a b : Frac) : Frac := Frac.reduce (a.n * b.n) (a.d * b.d)

/-- Reciprocal; `1/0 = 0` by convention (see the module comment). -/
def Frac.inv (a : Frac) : Frac :=
  if a.n = 0 then ⟨0, 1⟩
  else if 0 < a.n then ⟨(a.d : ℤ), a.n.toNat⟩
  else ⟨-(a.d : ℤ), (-a.n).toNat⟩

def Frac.div (a b : Frac) : Frac := a.mul b.inv

instance : Add Frac := ⟨Frac.add⟩
instance : Sub Frac := ⟨Frac.sub⟩
instance : Mul Frac := ⟨Frac.mul⟩
instance : Div Frac := ⟨Frac.div⟩
instance : Neg Frac := ⟨fun a => ⟨-a.n, a.d⟩⟩
instance : OfNat Frac m := ⟨⟨(m : ℤ), 1⟩⟩

/-- Order by cross multiplication (denominators are positive). -/
instance : LE Frac := ⟨fun a b => a.n * b.d ≤ b.n * a.d⟩
instance : LT Frac := ⟨fun a b => a.n * b.d < b.n * a.d⟩

instance (a b : Frac) : Decidable (a ≤ b) :=
  inferInstanceAs (Decidable (a.n * b.d ≤ b.n * a.d))

instance (a b : Frac) : Decidable (a < b) :=
  inferInstanceAs (Decidable (a.n * b.d < b.n * a.d))

/-- Value-level equality of two `Frac`s (by cross multiplication). -/
def Frac.eqv (a b : Frac) : Prop := a.n * b.d = b.n * a.d

instance (a b : Frac) : Decidable (a.eqv b) :=
  inferInstanceAs (Decidable (a.n * b.d = b.n * a.d))

/-- Model of Rust `f32::max` (no NaNs arise in this model). -/
def Frac.fmax (a b : Frac) : Frac := if a ≤ b then b else a

/-- Model of Rust `f32::min`. -/
def Frac.fmin (a b : Frac) : Frac := if b ≤ a then b else a

/-- Embed a natural number. -/
def Frac.ofNat (m : ℕ) : Frac := ⟨(m : ℤ), 1⟩

/-- Embed an integer. -/
def Frac.ofInt (m : ℤ) : Frac := ⟨m, 1⟩

/-- Construct the fraction `a / b` from naturals. -/
def fq (a : ℤ) (b : ℕ) : Frac := Frac.reduce a b

/-- Floor of a nonnegative `Frac` as a natural number. -/
def Frac.floorNat (a : Frac) : ℕ := a.n.toNat / a.d

/-- Model of `libm::truncf`: truncation toward zero. -/
def Frac.trunc (a : Frac) : Frac :=
  if 0 ≤ a.n then ⟨(a.n.toNat / a.d : ℕ), 1⟩ else ⟨-((-a.n).toNat / a.d : ℕ), 1⟩

/-- Model of `libm::roundf`: round half away from zero. -/
def Frac.roundAway (a : Frac) : ℤ :=
  if 0 ≤ a.n then ((2 * a.n.toNat + a.d) / (2 * a.d) : ℕ)
  else -(((2 * (-a.n).toNat + a.d) / (2 * a.d) : ℕ))

/-- Exact value of `f32::MAX` (2^128 - 2^104). -/
def f32Max : Frac := ⟨(2 ^ 24 - 1) * 2 ^ 104, 1⟩

/-- Exact value of `f32::EPSILON` (2^-23). -/
def f32Eps : Frac := ⟨1, 2 ^ 23⟩

/-- Fuel-driven integer square root (the fuel of 64 bits covers every
argument produced in this development). -/
def isqrt (m : ℕ) : ℕ :=
  (List.range 64).foldl
    (fun r k =>
      let k2 := 63 - k
      if (r + 2 ^ k2) * (r + 2 ^ k2) ≤ m then r + 2 ^ k2 else r)
    0

/-- Model of `f32::sqrt` on nonnegative values: a rational approximation
of the square root, truncated at 24 fractional bits (the precision of an
`f32` mantissa). -/
def Frac.sqrt (a : Frac) : Frac :=
  Frac.reduce (isqrt (a.n.toNat * a.d * 4 ^ 24) : ℕ) (a.d * 2 ^ 24)

/-- Model of `squish/src/math.rs` `f32_to_i32_clamped`:
`libm::roundf(a).max(0.0).min(limit as f32) as i32`.  The result is
always in `[0, limit]`, so it is returned as a natural number. -/
def f32_to_i32_clamped (a : Frac) (limit : ℕ) : ℕ :=
  min a.roundAway.toNat limit

/-- Model of the 3-lane `f32` vector `Vec3`
(`texpresso/src/math/vec3.rs`). -/
structure V3 where
  x : Frac
  y : Frac
  z : Frac
deriving DecidableEq

def V3.mk3 (x y z : Frac) : V3 := ⟨x, y, z⟩

def V3.add (a b : V3) : V3 := ⟨a.x + b.x, a.y + b.y, a.z + b.z⟩

def V3.sub (a b : V3) : V3 := ⟨a.x - b.x, a.y - b.y, a.z - b.z⟩

/-- Component-wise product (`impl Mul for Vec3`). -/
def V3.hmul (a b : V3) : V3 := ⟨a.x * b.x, a.y * b.y, a.z * b.z⟩

/-- Multiplication by a scalar (`impl Mul<f32> for Vec3`). -/
def V3.smul (a : V3) (s : Frac) : V3 := ⟨a.x * s, a.y * s, a.z * s⟩

def V3.dot (a b : V3) : Frac := a.x * b.x + a.y * b.y + a.z * b.z

def V3.length2 (a : V3) : Frac := a.x * a.x + a.y * a.y + a.z * a.z

def V3.fmax (a b : V3) : V3 := ⟨a.x.fmax b.x, a.y.fmax b.y, a.z.fmax b.z⟩

def V3.fmin (a b : V3) : V3 := ⟨a.x.fmin b.x, a.y.fmin b.y, a.z.fmin b.z⟩

def V3.trunc (a : V3) : V3 := ⟨a.x.trunc, a.y.trunc, a.z.trunc⟩

def v3zero : V3 := ⟨0, 0, 0⟩

/-- Model of the 4-lane `f32` vector `Vec4` (`squish/src/math/vec4.rs`). -/
structure V4 where
  x : Frac
  y : Frac
  z : Frac
  w : Frac
deriving DecidableEq

def V4.mk4 (x y z w : Frac) : V4 := ⟨x, y, z, w⟩

def V4.add (a b : V4) : V4 := ⟨a.x + b.x, a.y + b.y, a.z + b.z, a.w + b.w⟩

def V4.sub (a b : V4) : V4 := ⟨a.x - b.x, a.y - b.y, a.z - b.z, a.w - b.w⟩

def V4.hmul (a b : V4) : V4 := ⟨a.x * b.x, a.y * b.y, a.z * b.z, a.w * b.w⟩

def V4.toVec3 (a : V4) : V3 := ⟨a.x, a.y, a.z⟩

def V4.splatX (a : V4) : V4 := ⟨a.x, a.x, a.x, a.x⟩

def V4.splatY (a : V4) : V4 := ⟨a.y, a.y, a.y, a.y⟩

def V4.splatZ (a : V4) : V4 := ⟨a.z, a.z, a.z, a.z⟩

def V4.splatW (a : V4) : V4 := ⟨a.w, a.w, a.w, a.w⟩

/-- Component-wise reciprocal (`Vec4::reciprocal`). -/
def V4.reciprocal (a : V4) : V4 := ⟨⟨1, 1⟩ / a.x, ⟨1, 1⟩ / a.y, ⟨1, 1⟩ / a.z, ⟨1, 1⟩ / a.w⟩

/-- Model of `Vec4::any_less_than`. -/
def V4.anyLessThan (a b : V4) : Bool :=
  decide (a.x < b.x) || decide (a.y < b.y) || decide (a.z < b.z) || decide (a.w < b.w)

def V4.trunc (a : V4) : V4 := ⟨a.x.trunc, a.y.trunc, a.z.trunc, a.w.trunc⟩

def v4zero : V4 := ⟨0, 0, 0, 0⟩

/-! ## Colour block codec (`squish/src/colourblock.rs`) -/

namespace Colourblock

/-- Model of `pack_565`.  The source assembles the two bytes
`(g << 5) | b` and `(r << 3) | (g >> 3)` and reads them back as a
little-endian `u16`; because `r ≤ 31`, `g ≤ 63`, `b ≤ 31` that `u16`
equals `2048*r + 32*g + b`, which is the form used here. -/
def pack_565 (colour : V3) : ℕ :=
  let r := f32_to_i32_clamped (Frac.ofNat 31 * colour.x) 31
  let g := f32_to_i32_clamped (Frac.ofNat 63 * colour.y) 63
  let b := f32_to_i32_clamped (Frac.ofNat 31 * colour.z) 31
  2048 * r + 32 * g + b

/-- Model of `write_block`: the two endpoints as little-endian `u16`s
followed by the sixteen 2-bit indices packed four per byte.  The
source's `((idx & 0x03) << k)` bit-or chain is a sum of disjoint
bit ranges, written here as `(idx % 4) * 4^k` summed. -/
def write_block (a b : ℕ) (indices : List ℕ) : List ℕ :=
  [a % 256, a / 256 % 256, b % 256, b / 256 % 256] ++
    (List.range 4).map (fun i =>
      indices.getD (4 * i) 0 % 4 + 4 * (indices.getD (4 * i + 1) 0 % 4) +
        16 * (indices.getD (4 * i + 2) 0 % 4) + 64 * (indices.getD (4 * i + 3) 0 % 4))

/-- Model of `write3`: swap endpoints into `a ≤ b` order, exchanging
indices 0 and 1 when a swap happens. -/
def write3 (start endv : V3) (indices : List ℕ) : List ℕ :=
  let a := pack_565 start
  let b := pack_565 endv
  if b < a then
    write_block b a
      (indices.map (fun ix => if ix = 0 then 1 else if ix = 1 then 0 else ix))
  else
    write_block a b indices

/-- Model of `write4`: swap endpoints into `a ≥ b` order, XOR-ing each
index with 1 when a swap happens (`(index ^ 0x01) & 0x03` is
`(ix ^^^ 1) % 4`); all-zero indices when the packed endpoints are
equal. -/
def write4 (start endv : V3) (indices : List ℕ) : List ℕ :=
  let a := pack_565 start
  let b := pack_565 endv
  if a < b then
    write_block b a (indices.map (fun ix => (ix ^^^ 1) % 4))
  else if b < a then
    write_block a b indices
  else
    write_block a b (List.replicate 16 0)

/-- Model of `unpack_565` applied to the two bytes of a little-endian
`u16`.  Bit-replication `(v << k) | (v >> (bits - k))` on disjoint bit
ranges is written as a sum. -/
def unpack_565 (lo hi : ℕ) : List ℕ :=
  let value := lo + 256 * hi
  let r := value / 2048 % 32
  let g := value / 32 % 64
  let b := value % 32
  [r * 8 + r / 4, g * 4 + g / 16, b * 8 + b / 4, 255]

/-- The 16-byte palette array (`codes`) built by `colourblock.rs`
`decompress`: the two unpacked endpoints, then the interpolated
entries filled channel-wise in a loop (`codes[8+i]`, `codes[12+i]`),
then the two alpha-slot overwrites `codes[11]` and `codes[15]`; the
`% 256` records the `as u8` casts. -/
def codesOf (bytes : List ℕ) (isBc1 : Bool) : List ℕ :=
  let a := bytes.getD 0 0 + 256 * bytes.getD 1 0
  let b := bytes.getD 2 0 + 256 * bytes.getD 3 0
  let c0 := unpack_565 (bytes.getD 0 0) (bytes.getD 1 0)
  let c1 := unpack_565 (bytes.getD 2 0) (bytes.getD 3 0)
  let mid2 := (List.range 4).map (fun i =>
    let c := c0.getD i 0
    let d := c1.getD i 0
    if isBc1 && decide (a ≤ b) then (c + d) / 2 % 256 else (2 * c + d) / 3 % 256)
  let mid3 := (List.range 4).map (fun i =>
    let c := c0.getD i 0
    let d := c1.getD i 0
    if isBc1 && decide (a ≤ b) then 0 else (c + 2 * d) / 3 % 256)
  ((c0 ++ c1 ++ mid2 ++ mid3).set 11 255).set 15
    (if isBc1 && decide (a ≤ b) then 0 else 255)

/-- The 2-bit index of texel `t` unpacked from the last four bytes of a
colour sub-block (`ind[j] = (packed >> 2j) & 0x03` in the source). -/
def idxAt (bytes : List ℕ) (t : ℕ) : ℕ :=
  bytes.getD (4 + t / 4) 0 / 4 ^ (t % 4) % 4

/-- Model of `colourblock.rs` `decompress`: rebuild the 4-entry palette
(`codesOf`), unpack the sixteen 2-bit indices (`idxAt`), fetch palette
entries. -/
def decompress (bytes : List ℕ) (isBc1 : Bool) : List (List ℕ) :=
  let codes := codesOf bytes isBc1
  (List.range 16).map (fun t =>
    let offset := 4 * idxAt bytes t
    (List.range 4).map (fun c => codes.getD (offset + c) 0))

end Colourblock

/-! ## Alpha block codec (`squish/src/alpha.rs`) -/

namespace Alpha

/-- Model of `compress_bc2`: quantise each texel's alpha to 4 bits,
force masked-out texels to 0, pack two per byte (low nibble first). -/
def compress_bc2 (rgba : List (List ℕ)) (mask : ℕ) : List ℕ :=
  (List.range 8).map (fun i =>
    let alpha1 := Frac.ofNat ((rgba.getD (2 * i) []).getD 3 0) * fq 15 255
    let alpha2 := Frac.ofNat ((rgba.getD (2 * i + 1) []).getD 3 0) * fq 15 255
    let quant1 := f32_to_i32_clamped alpha1 15
    let quant2 := f32_to_i32_clamped alpha2 15
    let quant1 := if Nat.testBit mask (2 * i) then quant1 else 0
    let quant2 := if Nat.testBit mask (2 * i + 1) then quant2 else 0
    quant1 + 16 * quant2)

/-- Model of `decompress_bc2`: for byte `i`, texel `2i` gets
`lo | (lo << 4)` and texel `2i+1` gets `hi | (hi << 4)`, where the
shifts are `u8` shifts (hence the `% 256`). -/
def decompress_bc2 (rgba : List (List ℕ)) (bytes : List ℕ) : List (List ℕ) :=
  (List.range 16).map (fun t =>
    let px := rgba.getD t []
    let quant := bytes.getD (t / 2) 0
    let lo := quant % 16
    let hi := quant / 16 % 16 * 16
    let newA :=
      if t % 2 = 0 then lo ||| (lo <<< 4) % 256
      else hi ||| (hi <<< 4) % 256
    px.set 3 newA)

/-- Model of `fix_range`.  Both callers establish `mn ≤ mx`, and under
that precondition the saturating `Nat` subtraction agrees with the
source's `u8`/`i32` arithmetic (including the final `.max(0)`). -/
def fix_range (mn mx steps : ℕ) : ℕ × ℕ :=
  let mx1 := if mx - mn < steps then min (mn + steps) 255 else mx
  let mn1 := if mx1 - mn < steps then mx1 - steps else mn
  (mn1, mx1)

/-- Model of `fit_codes`: assign every valid texel the nearest of the 8
codebook entries (squared error, `u32::MAX` sentinel), index 0 for
masked texels; returns the indices and the summed error. -/
def fit_codes (rgba : List (List ℕ)) (channel : ℕ) (mask : ℕ) (codes : List ℕ) :
    List ℕ × ℕ :=
  (List.range 16).foldl
    (fun st i =>
      if Nat.testBit mask i then
        let value := (rgba.getD i []).getD channel 0
        let fit := (List.range 8).foldl
          (fun (lst : ℕ × ℕ) j =>
            let code := codes.getD j 0
            let dist := (((value : ℤ) - (code : ℤ)).natAbs) ^ 2
            if dist < lst.1 then (dist, j) else lst)
          (2 ^ 32 - 1, 0)
        (st.1.set i fit.2, st.2 + fit.1)
      else
        (st.1.set i 0, st.2))
    (List.replicate 16 0, 0)

/-- Model of `write_alpha_block`: the two endpoints followed by the
sixteen 3-bit indices packed little-endian into six bytes. -/
def write_alpha_block (alpha0 alpha1 : ℕ) (indices : List ℕ) : List ℕ :=
  [alpha0, alpha1] ++
    ((List.range 2).map (fun i =>
      let value := (List.range 8).foldl
        (fun v j => v ||| (indices.getD (8 * i + j) 0 <<< (3 * j))) 0
      (List.range 3).map (fun j => value >>> (8 * j) % 256))).flatten

/-- Model of `write_alpha_block5`: ensure `alpha0 ≤ alpha1` on disk,
rewriting indices `0↔1`, `x ∈ [2,5] → 7-x` when swapped. -/
def write_alpha_block5 (alpha0 alpha1 : ℕ) (indices : List ℕ) : List ℕ :=
  if alpha1 < alpha0 then
    write_alpha_block alpha1 alpha0
      (indices.map (fun x =>
        if x = 0 then 1 else if x = 1 then 0
        else if 2 ≤ x ∧ x ≤ 5 then 7 - x else x))
  else
    write_alpha_block alpha0 alpha1 indices

/-- Model of `write_alpha_block7`: ensure `alpha0 ≥ alpha1` on disk,
rewriting indices `0↔1`, otherwise `x → 9-x` when swapped. -/
def write_alpha_block7 (alpha0 alpha1 : ℕ) (indices : List ℕ) : List ℕ :=
  if alpha0 < alpha1 then
    write_alpha_block alpha1 alpha0
      (indices.map (fun x =>
        if x = 0 then 1 else if x = 1 then 0 else 9 - x))
  else
    write_alpha_block alpha0 alpha1 indices

/-- The range-gathering prologue of `compress_bc3`: the 7-range over all
valid values, the 5-range excluding 0 (for the minimum) and 255 (for
the maximum), both collapsed if empty and then spread by `fix_range`.
Returns `(min5, max5, min7, max7)`. -/
def alphaRanges (rgba : List (List ℕ)) (channel : ℕ) (mask : ℕ) : ℕ × ℕ × ℕ × ℕ :=
  let st := (List.range 16).foldl
    (fun (st : ℕ × ℕ × ℕ × ℕ) i =>
      if Nat.testBit mask i then
        let value := (rgba.getD i []).getD channel 0
        let min5 := if value ≠ 0 then min st.1 value else st.1
        let max5 := if value ≠ 255 then max st.2.1 value else st.2.1
        (min5, max5, min st.2.2.1 value, max st.2.2.2 value)
      else st)
    (255, 0, 255, 0)
  let min5 := if st.2.1 < st.1 then st.2.1 else st.1
  let min7 := if st.2.2.2 < st.2.2.1 then st.2.2.2 else st.2.2.1
  let r5 := fix_range min5 st.2.1 5
  let r7 := fix_range min7 st.2.2.2 7
  (r5.1, r5.2, r7.1, r7.2)

/-- The 5-alpha codebook of `compress_bc3`: endpoints, four
interpolants of `min5`/`max5`, then the constants 0 and 255. -/
def codes5Of (min5 max5 : ℕ) : List ℕ :=
  [min5, max5] ++
    (List.range 4).map (fun k =>
      let i := k + 1
      ((5 - i) * min5 + i * max5) / 5 % 256) ++ [0, 255]

/-- The 7-alpha codebook of `compress_bc3` as the source builds it: the
interpolants use `min7`/`max7` but entries 0 and 1 are `min5`/`max5`
(faithful to `codes7[0] = min5; codes7[1] = max5;` in the source). -/
def codes7Of (min5 max5 min7 max7 : ℕ) : List ℕ :=
  [min5, max5] ++
    (List.range 6).map (fun k =>
      let i := k + 1
      ((7 - i) * min7 + i * max7) / 7 % 256)

/-- Model of `compress_bc3`: build both candidate codebooks, fit the
valid texels to each, keep the candidate with the smaller summed error
(ties favour the 5-alpha codebook). -/
def compress_bc3 (rgba : List (List ℕ)) (channel : ℕ) (mask : ℕ) : List ℕ :=
  let r := alphaRanges rgba channel mask
  let min5 := r.1
  let max5 := r.2.1
  let min7 := r.2.2.1
  let max7 := r.2.2.2
  let codes5 := codes5Of min5 max5
  let codes7 := codes7Of min5 max5 min7 max7
  let fit5 := fit_codes rgba channel mask codes5
  let fit7 := fit_codes rgba channel mask codes7
  if fit5.2 ≤ fit7.2 then write_alpha_block5 min5 max5 fit5.1
  else write_alpha_block7 min7 max7 fit7.1

/-- Model of `decompress_bc3`: rebuild the codebook from the two
endpoint bytes (5-alpha codebook plus constants when
`alpha0 ≤ alpha1`, 7-alpha codebook otherwise), unpack the sixteen
3-bit indices from the six index bytes, write the chosen channel. -/
def decompress_bc3 (rgba : List (List ℕ)) (channel : ℕ) (bytes : List ℕ) :
    List (List ℕ) :=
  let alpha0 := bytes.getD 0 0
  let alpha1 := bytes.getD 1 0
  let codes :=
    if alpha0 ≤ alpha1 then
      [alpha0, alpha1] ++
        (List.range 4).map (fun k =>
          let i := k + 1
          ((5 - i) * alpha0 + i * alpha1) / 5 % 256) ++ [0, 255]
    else
      [alpha0, alpha1] ++
        (List.range 6).map (fun k =>
          let i := k + 1
          ((7 - i) * alpha0 + i * alpha1) / 7 % 256)
  let indexAt := fun (t : ℕ) =>
    let base := 2 + 3 * (t / 8)
    let value := bytes.getD base 0 + 256 * bytes.getD (base + 1) 0 +
      65536 * bytes.getD (base + 2) 0
    value / 8 ^ (t % 8) % 8
  (List.range 16).map (fun t =>
    let px := rgba.getD t []
    px.set channel (codes.getD (indexAt t) 0))

end Alpha

/-! ## Symmetric 3x3 matrix and eigensolver (`squish/src/math.rs`) -/

/-- Division of a `Vec3` by a scalar (`impl Div<f32> for Vec3`). -/
def V3.sdiv (a : V3) (s : Frac) : V3 := ⟨a.x / s, a.y / s, a.z / s⟩

/-- Model of `Sym3x3`: the six unique coefficients `x[0]..x[5]` of a
symmetric 3x3 matrix. -/
structure Sym3x3 where
  a0 : Frac
  a1 : Frac
  a2 : Frac
  a3 : Frac
  a4 : Frac
  a5 : Frac
deriving DecidableEq

/-- Model of `Sym3x3::weighted_covariance`: centroid
`Σ w·p / Σ w` (plain sum when the total weight is not above
`f32::EPSILON`), then accumulation of `Σ (p-c)·w·(p-c)ᵀ` into the six
unique entries, in iteration order. -/
def Sym3x3.weighted_covariance (points : List V3) (weights : List Frac) : Sym3x3 :=
  let total := weights.foldl Frac.add ⟨0, 1⟩
  let centroid := (points.zip weights).foldl
    (fun c pw => c.add (pw.1.smul pw.2)) v3zero
  let centroid := if f32Eps < total then centroid.sdiv total else centroid
  (points.zip weights).foldl
    (fun cov pw =>
      let a := pw.1.sub centroid
      let b := a.smul pw.2
      ⟨cov.a0 + a.x * b.x, cov.a1 + a.x * b.y, cov.a2 + a.x * b.z,
       cov.a3 + a.y * b.y, cov.a4 + a.y * b.z, cov.a5 + a.z * b.z⟩)
    ⟨0, 0, 0, 0, 0, 0⟩

/-- Model of `Sym3x3::principle_component`: eight power-iteration steps
starting from the 4-lane vector `(1,1,1,1)`; each step multiplies by the
matrix through the three 4-lane rows (whose fourth lane is 0), scales by
the reciprocal of the largest of the x, y, z lanes, and the 3-lane
projection of the final vector is returned. -/
def Sym3x3.principle_component (s : Sym3x3) : V3 :=
  let row0 : V4 := ⟨s.a0, s.a1, s.a2, 0⟩
  let row1 : V4 := ⟨s.a1, s.a3, s.a4, 0⟩
  let row2 : V4 := ⟨s.a2, s.a4, s.a5, 0⟩
  let v := (List.range 8).foldl
    (fun v _ =>
      let w := row0.hmul v.splatX
      let w := (row1.hmul v.splatY).add w
      let w := (row2.hmul v.splatZ).add w
      let a := w.x.fmax (w.y.fmax w.z)
      let av : V4 := ⟨a, a, a, a⟩
      w.hmul av.reciprocal)
    ⟨1, 1, 1, 1⟩
  v.toVec3

/-! ## Formats, algorithms and parameters (`squish/src/lib.rs`) -/

/-- Model of `enum Format`. -/
inductive Format where
  | Bc1
  | Bc2
  | Bc3
  | Bc4
  | Bc5
deriving DecidableEq

/-- Model of `enum Algorithm`. -/
inductive Algorithm where
  | RangeFit
  | ClusterFit
  | IterativeClusterFit
deriving DecidableEq

/-- Model of `struct Params`; the three channel weights are the `f32`
triple `ColourWeights`. -/
structure Params where
  algorithm : Algorithm
  weights : V3
  weigh_colour_by_alpha : Bool

/-- Model of `num_blocks`. -/
def num_blocks (size : ℕ) : ℕ := (size + 3) / 4

/-- Model of `Format::block_size`. -/
def Format.block_size : Format → ℕ
  | .Bc1 => 8
  | .Bc2 => 16
  | .Bc3 => 16
  | .Bc4 => 8
  | .Bc5 => 16

/-- Model of `Format::compressed_size`. -/
def Format.compressed_size (f : Format) (width height : ℕ) : ℕ :=
  num_blocks width * num_blocks height * f.block_size

/-! ## Colour point set (`squish/src/colourset.rs`) -/

/-- Model of `struct ColourSet`.  `points`, `weights` hold the `count`
live entries (the source preallocates 16 slots and exposes the first
`count` through `points()` / `weights()`). -/
structure ColourSet where
  count : ℕ
  points : List V3
  weights : List Frac
  remap : List ℤ
  transparent : Bool

/-- The duplicate test inside `ColourSet::new`'s inner scan: texel `j`
is enabled, has the same RGB as texel `i`, and (for BC1) is not
punch-through transparent. -/
def dupMatch (rgba : List (List ℕ)) (mask : ℕ) (format : Format) (i j : ℕ) : Bool :=
  Nat.testBit mask j &&
    decide ((rgba.getD i []).getD 0 0 = (rgba.getD j []).getD 0 0) &&
    decide ((rgba.getD i []).getD 1 0 = (rgba.getD j []).getD 1 0) &&
    decide ((rgba.getD i []).getD 2 0 = (rgba.getD j []).getD 2 0) &&
    (decide (format ≠ Format.Bc1) || decide (128 ≤ (rgba.getD j []).getD 3 0))

/-- Model of `ColourSet::new`.  Texels are processed in order 0..15;
masked-out texels and (for BC1) texels with alpha below 128 get
`remap = -1`; otherwise the first earlier matching texel's point gains
this texel's weight, or a new point is appended.  Finally every weight
is replaced by its square root. -/
def ColourSet.new (rgba : List (List ℕ)) (mask : ℕ) (format : Format)
    (alphaWeighted : Bool) : ColourSet :=
  let st := (List.range 16).foldl
    (fun (st : ColourSet) i =>
      if ¬ Nat.testBit mask i then
        { st with remap := st.remap ++ [-1] }
      else if format = Format.Bc1 ∧ (rgba.getD i []).getD 3 0 < 128 then
        { st with remap := st.remap ++ [-1], transparent := true }
      else
        let w : Frac :=
          if alphaWeighted then fq ((rgba.getD i []).getD 3 0 + 1) 256 else ⟨1, 1⟩
        match (List.range i).find? (fun j => dupMatch rgba mask format i j) with
        | some j =>
          let index := st.remap.getD j 0
          { st with
            weights := st.weights.set index.toNat
              ((st.weights.getD index.toNat ⟨0, 1⟩) + w),
            remap := st.remap ++ [index] }
        | none =>
          let x := fq ((rgba.getD i []).getD 0 0) 255
          let y := fq ((rgba.getD i []).getD 1 0) 255
          let z := fq ((rgba.getD i []).getD 2 0) 255
          { st with
            points := st.points ++ [⟨x, y, z⟩],
            weights := st.weights ++ [w],
            remap := st.remap ++ [(st.count : ℤ)],
            count := st.count + 1 })
    ⟨0, [], [], [], false⟩
  { st with weights := st.weights.map Frac.sqrt }

/-- Model of `ColourSet::remap_indices`: per original texel position,
`-1` becomes index 3 (the BC1 transparent slot), otherwise the fitted
per-point index is fetched. -/
def ColourSet.remap_indices (cs : ColourSet) (source : List ℕ) : List ℕ :=
  (List.range 16).map (fun i =>
    let j := cs.remap.getD i 0
    if j = -1 then 3 else source.getD j.toNat 0)

/-! ## Generic fitter entry point (`lib/src/colourfit.rs`) -/

/-- Model of the blanket `ColourFit::compress` implementation: BC1 runs
the three-palette pass and, when the block has no punch-through
transparency, also the four-palette pass; other colour formats run only
the four-palette pass. -/
def colourFitRun {α : Type} (isBc1 transparent : Bool) (c3 c4 : α → α) (st : α) : α :=
  if isBc1 then
    let st := c3 st
    if !transparent then c4 st else st
  else c4 st

/-! ## Single-colour fitter (`squish/src/colourfit/single.rs`) -/

/-- One entry of a single-colour lookup table: quantised start and end
endpoint levels plus the residual error. -/
structure SourceEntry where
  start : ℕ
  endv : ℕ
  error : ℕ
deriving DecidableEq

/-- Bit-replicating expansion of a 5-bit level to 8 bits. -/
def expand5 (v : ℕ) : ℕ := v * 8 + v / 4

/-- Bit-replicating expansion of a 6-bit level to 8 bits. -/
def expand6 (v : ℕ) : ℕ := v * 4 + v / 16

/-- Absolute difference of naturals. -/
def adist (a b : ℕ) : ℕ := max a b - min a b

/-- Modelled from the spec: the "endpoint" column of a single-colour
lookup table (`squish/src/colourfit/single_lut.rs` is not part of the
source tree).  Spec section 4.5: the entry stores the endpoint level
whose expansion is closest to the 8-bit target, with its residual
error. -/
def bestEndpoint (expand : ℕ → ℕ) (levels : ℕ) (t : ℕ) : SourceEntry :=
  (List.range levels).foldl
    (fun best s =>
      let e := adist (expand s) t
      if e < best.error then ⟨s, s, e⟩ else best)
    ⟨0, 0, 256⟩

/-- Modelled from the spec: the "interpolated midpoint" column of a
single-colour lookup table; the entry stores the endpoint pair whose
interpolated palette entry 2 is closest to the 8-bit target. -/
def bestMid (expand : ℕ → ℕ) (levels : ℕ) (mix : ℕ → ℕ → ℕ) (t : ℕ) : SourceEntry :=
  (List.range levels).foldl
    (fun best s =>
      (List.range levels).foldl
        (fun best e =>
          let d := adist (mix (expand s) (expand e)) t
          if d < best.error then ⟨s, e, d⟩ else best)
        best)
    ⟨0, 0, 256⟩

/-- Palette entry 2 of the three-colour palette: `(a + b) / 2`. -/
def mix3 (a b : ℕ) : ℕ := (a + b) / 2

/-- Palette entry 2 of the four-colour palette: `(2a + b) / 3`. -/
def mix4 (a b : ℕ) : ℕ := (2 * a + b) / 3

/-- Modelled from the spec: `LOOKUP_5_3` (5-bit channel, three-colour
palette); `sources[0]` is the endpoint column, `sources[1]` the
midpoint column. -/
def lookup_5_3 (t : ℕ) : SourceEntry × SourceEntry :=
  (bestEndpoint expand5 32 t, bestMid expand5 32 mix3 t)

/-- Modelled from the spec: `LOOKUP_6_3`. -/
def lookup_6_3 (t : ℕ) : SourceEntry × SourceEntry :=
  (bestEndpoint expand6 64 t, bestMid expand6 64 mix3 t)

/-- Modelled from the spec: `LOOKUP_5_4`. -/
def lookup_5_4 (t : ℕ) : SourceEntry × SourceEntry :=
  (bestEndpoint expand5 32 t, bestMid expand5 32 mix4 t)

/-- Modelled from the spec: `LOOKUP_6_4`. -/
def lookup_6_4 (t : ℕ) : SourceEntry × SourceEntry :=
  (bestEndpoint expand6 64 t, bestMid expand6 64 mix4 t)

/-- Model of `SingleColourFit::compute_endpoints`: try the two palette
positions (endpoint, giving index 0, and interpolated midpoint, giving
index 2), keep the one with the smaller summed squared residual.
Returns `(start, end, index, error)`. -/
def compute_endpoints (cs : ColourSet)
    (lutR lutG lutB : ℕ → SourceEntry × SourceEntry) : V3 × V3 × ℕ × ℕ :=
  let p := cs.points.getD 0 v3zero
  let c0 := f32_to_i32_clamped (p.x * Frac.ofNat 255) 255
  let c1 := f32_to_i32_clamped (p.y * Frac.ofNat 255) 255
  let c2 := f32_to_i32_clamped (p.z * Frac.ofNat 255) 255
  ([0, 1].foldl
    (fun (st : V3 × V3 × ℕ × ℕ) idx =>
      let s0 := if idx = 0 then (lutR c0).1 else (lutR c0).2
      let s1 := if idx = 0 then (lutG c1).1 else (lutG c1).2
      let s2 := if idx = 0 then (lutB c2).1 else (lutB c2).2
      let error := s0.error * s0.error + s1.error * s1.error + s2.error * s2.error
      if error < st.2.2.2 then
        (⟨fq s0.start 31, fq s1.start 63, fq s2.start 31⟩,
         ⟨fq s0.endv 31, fq s1.endv 63, fq s2.endv 31⟩, 2 * idx, error)
      else st)
    (v3zero, v3zero, 0, 2 ^ 32 - 1))

/-- Model of `SingleColourFit`'s `compress3`/`compress4`/trait flow;
the state is `(best_error, best_compressed)`. -/
def singleColourFitCompress (cs : ColourSet) (format : Format) : List ℕ :=
  let c3 := fun (st : ℕ × List ℕ) =>
    let r := compute_endpoints cs lookup_5_3 lookup_6_3 lookup_5_3
    if r.2.2.2 < st.1 then
      (r.2.2.2, Colourblock.write3 r.1 r.2.1 (cs.remap_indices (List.replicate 16 r.2.2.1)))
    else st
  let c4 := fun (st : ℕ × List ℕ) =>
    let r := compute_endpoints cs lookup_5_4 lookup_6_4 lookup_5_4
    if r.2.2.2 < st.1 then
      (r.2.2.2, Colourblock.write4 r.1 r.2.1 (cs.remap_indices (List.replicate 16 r.2.2.1)))
    else st
  (colourFitRun (decide (format = Format.Bc1)) cs.transparent c3 c4
    (2 ^ 32 - 1, List.replicate 8 0)).2

/-! ## Range fitter (`squish/src/colourfit/range.rs`) -/

/-- Model of the constructor `RangeFit::new`: principal axis from the
weighted covariance, endpoints from the extreme projections, clamped to
the unit cube and snapped to the 5-6-5 grid. -/
def rangeFitInit (cs : ColourSet) : V3 × V3 :=
  let covariance := Sym3x3.weighted_covariance cs.points cs.weights
  let principle := covariance.principle_component
  let se :=
    if 0 < cs.count then
      let v0 := cs.points.getD 0 v3zero
      let d0 := v0.dot principle
      ((List.range (cs.count - 1)).foldl
        (fun (st : V3 × Frac × V3 × Frac) k =>
          let val := cs.points.getD (k + 1) v3zero
          let dot := val.dot principle
          if dot < st.2.1 then (val, dot, st.2.2)
          else if st.2.2.2 < dot then (st.1, st.2.1, val, dot)
          else st)
        (v0, d0, v0, d0))
    else (v3zero, 0, v3zero, 0)
  let one : V3 := ⟨1, 1, 1⟩
  let start := one.fmin (v3zero.fmax se.1)
  let endv := one.fmin (v3zero.fmax se.2.2.1)
  let grid : V3 := ⟨31, 63, 31⟩
  let gridrcp : V3 := ⟨fq 1 31, fq 1 63, fq 1 31⟩
  let half : V3 := ⟨fq 1 2, fq 1 2, fq 1 2⟩
  (((grid.hmul start).add half).trunc.hmul gridrcp,
   ((grid.hmul endv).add half).trunc.hmul gridrcp)

/-- Model of `RangeFit::compression_helper`: match each point to the
closest code by weighted squared distance, accumulating the error.
Returns the per-point indices and the total error. -/
def rangeHelper (cs : ColourSet) (weights : V3) (codes : List V3) : List ℕ × Frac :=
  (List.range cs.count).foldl
    (fun (st : List ℕ × Frac) i =>
      let v := cs.points.getD i v3zero
      let fit := (List.range codes.length).foldl
        (fun (best : Frac × ℕ) j =>
          let d := (weights.hmul (v.sub (codes.getD j v3zero))).length2
          if d < best.1 then (d, j) else best)
        (f32Max, 0)
      (st.1.set i fit.2, st.2 + fit.1))
    (List.replicate 16 0, 0)

/-- Model of `RangeFit`'s trait flow; the state is
`(best_error, best_compressed)`. -/
def rangeFitCompress (cs : ColourSet) (format : Format) (weights : V3) : List ℕ :=
  let se := rangeFitInit cs
  let c3 := fun (st : Frac × List ℕ) =>
    let codes := [se.1, se.2, (se.1.smul (fq 1 2)).add (se.2.smul (fq 1 2))]
    let h := rangeHelper cs weights codes
    if h.2 < st.1 then (h.2, Colourblock.write3 se.1 se.2 (cs.remap_indices h.1)) else st
  let c4 := fun (st : Frac × List ℕ) =>
    let codes := [se.1, se.2,
      (se.1.smul (fq 2 3)).add (se.2.smul (fq 1 3)),
      (se.1.smul (fq 1 3)).add (se.2.smul (fq 2 3))]
    let h := rangeHelper cs weights codes
    if h.2 < st.1 then (h.2, Colourblock.write4 se.1 se.2 (cs.remap_indices h.1)) else st
  (colourFitRun (decide (format = Format.Bc1)) cs.transparent c3 c4
    (f32Max, List.replicate 8 0)).2

/-! ## Cluster fitter (`squish/src/colourfit/cluster.rs`) -/

/-- Component-wise maximum (`Vec4::max`). -/
def V4.vmax (a b : V4) : V4 := ⟨a.x.fmax b.x, a.y.fmax b.y, a.z.fmax b.z, a.w.fmax b.w⟩

/-- Component-wise minimum (`Vec4::min`). -/
def V4.vmin (a b : V4) : V4 := ⟨a.x.fmin b.x, a.y.fmin b.y, a.z.fmin b.z, a.w.fmin b.w⟩

/-- The running best solution of a cluster-fit pass: endpoints, error,
partition boundaries and the iteration that produced it. -/
structure CFBest where
  start : V4
  endv : V4
  error : V4
  besti : ℕ
  bestj : ℕ
  bestk : ℕ
  iteration : ℕ

/-- Model of `ClusterFit::construct_ordering`: sort the point indices by
their projection onto `axis` (padding slots carry index 0 with key
`f32::MAX`), give up if the resulting ordering duplicates one from an
earlier iteration of the same pass, otherwise return the ordering, the
reordered `(w*x, w*y, w*z, w)` points and their running total. -/
def constructOrdering (cs : ColourSet) (axis : V3) (orders : List (List ℕ)) :
    Option (List ℕ × List V4 × V4) :=
  let dps := (List.range 16).map (fun i =>
    if i < cs.count then (i, (cs.points.getD i v3zero).dot axis) else (0, f32Max))
  let sorted := dps.insertionSort (fun a b => a.2 ≤ b.2)
  let order := sorted.map (fun p => p.1)
  if orders.any (fun o => decide (o = order)) then none
  else
    let pw := (List.range cs.count).map (fun i =>
      let j := order.getD i 0
      let p := cs.points.getD j v3zero
      let w := cs.weights.getD j ⟨0, 1⟩
      V4.hmul ⟨p.x, p.y, p.z, 1⟩ ⟨w, w, w, w⟩)
    let xsum := pw.foldl V4.add v4zero
    some (order, pw, xsum)

/-- The least-squares candidate of `ClusterFit::compress3` for a fixed
partition, given the prefix sums `part0`, `part1`: the snapped optimal
endpoints and the (constant-free) error term.  Degenerate partitions
make `factor` a reciprocal of zero; under both the `f32` semantics
(NaN, then `min`/`max` clamping to 0) and this model (`1/0 = 0`) the
candidate comes out as endpoints 0 with error 0. -/
def cf3Candidate (weights part0 part1 xsum : V4) : V4 × V4 × V4 :=
  let halfHalf2 : V4 := ⟨fq 1 2, fq 1 2, fq 1 2, fq 1 4⟩
  let part2 := (xsum.sub part1).sub part0
  let alphax := (part1.hmul halfHalf2).add part0
  let alpha2 := alphax.splatW
  let betax := (part1.hmul halfHalf2).add part2
  let beta2 := betax.splatW
  let alphabeta := (part1.hmul halfHalf2).splatW
  let factor := ((alpha2.hmul beta2).sub (alphabeta.hmul alphabeta)).reciprocal
  let a := ((alphax.hmul beta2).sub (betax.hmul alphabeta)).hmul factor
  let b := ((betax.hmul alpha2).sub (alphax.hmul alphabeta)).hmul factor
  let one : V4 := ⟨1, 1, 1, 1⟩
  let a := one.vmin (v4zero.vmax a)
  let b := one.vmin (v4zero.vmax b)
  let grid : V4 := ⟨31, 63, 31, 0⟩
  let gridrcp : V4 := ⟨fq 1 31, fq 1 63, fq 1 31, 0⟩
  let half : V4 := ⟨fq 1 2, fq 1 2, fq 1 2, fq 1 2⟩
  let a := ((grid.hmul a).add half).trunc.hmul gridrcp
  let b := ((grid.hmul b).add half).trunc.hmul gridrcp
  let two : V4 := ⟨2, 2, 2, 2⟩
  let e1 := ((a.hmul a).hmul alpha2).add ((b.hmul b).hmul beta2)
  let e2 := ((a.hmul b).hmul alphabeta).sub (a.hmul alphax)
  let e3 := e2.sub (b.hmul betax)
  let e4 := (two.hmul e3).add e1
  let e5 := e4.hmul weights
  (a, b, (e5.splatX.add e5.splatY).add e5.splatZ)

/-- The double partition loop of `ClusterFit::compress3` for one
ordering. -/
def cf3Scan (weights : V4) (pw : List V4) (xsum : V4) (count iterIx : ℕ)
    (init : CFBest) : CFBest :=
  ((List.range count).foldl
    (fun (acc : V4 × CFBest) i =>
      let part1init := if i = 0 then pw.getD 0 v4zero else v4zero
      let jmin := if i = 0 then 1 else i
      let inner := (List.range' jmin (count + 1 - jmin)).foldl
        (fun (acc2 : V4 × CFBest) j =>
          let cand := cf3Candidate weights acc.1 acc2.1 xsum
          let best := acc2.2
          let best' :=
            if cand.2.2.anyLessThan best.error then
              ⟨cand.1, cand.2.1, cand.2.2, i, j, 0, iterIx⟩
            else best
          let part1' := if j < count then acc2.1.add (pw.getD j v4zero) else acc2.1
          (part1', best'))
        (part1init, acc.2)
      (acc.1.add (pw.getD i v4zero), inner.2))
    (v4zero, init)).2

/-- The iteration loop shared by both cluster-fit passes; `scan` is the
partition enumeration of one ordering.  Stops when the fuel
(`num_iterations`) runs out, when no new ordering exists, or when an
iteration fails to improve the best solution; otherwise the next axis
is `best_end - best_start`. -/
def cfLoop (cs : ColourSet)
    (scan : List V4 → V4 → ℕ → CFBest → CFBest) :
    ℕ → ℕ → List (List ℕ) → V3 → CFBest → CFBest × List (List ℕ)
  | 0, _, orders, _, best => (best, orders)
  | fuel + 1, iterIx, orders, axis, best =>
    match constructOrdering cs axis orders with
    | none => (best, orders)
    | some (order, pw, xsum) =>
      let orders2 := orders ++ [order]
      let best2 := scan pw xsum iterIx best
      if best2.iteration ≠ iterIx then (best2, orders2)
      else cfLoop cs scan fuel (iterIx + 1) orders2
        ((best2.endv.sub best2.start).toVec3) best2

/-- The per-texel palette indices of a `compress3` solution: cluster
`[i, j)` gets palette index 2, cluster `[j, count)` index 1, the rest
index 0 (in ordering space, scattered back through `order`). -/
def buildUnordered3 (order : List ℕ) (i j count : ℕ) : List ℕ :=
  let u := List.replicate 16 0
  let u := (List.range' i (j - i)).foldl (fun u m => u.set (order.getD m 0) 2) u
  (List.range' j (count - j)).foldl (fun u m => u.set (order.getD m 0) 1) u

/-- Model of `ClusterFit::compress3`; the state is
`(best_error, best_compressed)`. -/
def clusterFitCompress3 (cs : ColourSet) (weights : V4) (principle : V3)
    (numIterations : ℕ) (st : V4 × List ℕ) : V4 × List ℕ :=
  let init : CFBest := ⟨v4zero, v4zero, st.1, 0, 0, 0, 0⟩
  let r := cfLoop cs (fun pw xsum iterIx b => cf3Scan weights pw xsum cs.count iterIx b)
    numIterations 0 [] principle init
  let best := r.1
  if best.error.anyLessThan st.1 then
    let order := r.2.getD best.iteration []
    let unordered := buildUnordered3 order best.besti best.bestj cs.count
    let indices := cs.remap_indices unordered
    (best.error, Colourblock.write3 best.start.toVec3 best.endv.toVec3 indices)
  else st

/-- The least-squares candidate of `ClusterFit::compress4` for a fixed
partition, given the prefix sums `part0`, `part1`, `part2`. -/
def cf4Candidate (weights part0 part1 part2 xsum : V4) : V4 × V4 × V4 :=
  let onethird : V4 := ⟨fq 1 3, fq 1 3, fq 1 3, fq 1 9⟩
  let twothirds : V4 := ⟨fq 2 3, fq 2 3, fq 2 3, fq 4 9⟩
  let twoninths : V4 := ⟨fq 2 9, fq 2 9, fq 2 9, fq 2 9⟩
  let part3 := ((xsum.sub part2).sub part1).sub part0
  let alphax := (part2.hmul onethird).add ((part1.hmul twothirds).add part0)
  let alpha2 := alphax.splatW
  let betax := (part1.hmul onethird).add ((part2.hmul twothirds).add part3)
  let beta2 := betax.splatW
  let alphabeta := twoninths.hmul (part1.add part2).splatW
  let factor := ((alpha2.hmul beta2).sub (alphabeta.hmul alphabeta)).reciprocal
  let a := ((alphax.hmul beta2).sub (betax.hmul alphabeta)).hmul factor
  let b := ((betax.hmul alpha2).sub (alphax.hmul alphabeta)).hmul factor
  let one : V4 := ⟨1, 1, 1, 1⟩
  let a := one.vmin (v4zero.vmax a)
  let b := one.vmin (v4zero.vmax b)
  let grid : V4 := ⟨31, 63, 31, 0⟩
  let gridrcp : V4 := ⟨fq 1 31, fq 1 63, fq 1 31, 0⟩
  let half : V4 := ⟨fq 1 2, fq 1 2, fq 1 2, fq 1 2⟩
  let a := ((grid.hmul a).add half).trunc.hmul gridrcp
  let b := ((grid.hmul b).add half).trunc.hmul gridrcp
  let two : V4 := ⟨2, 2, 2, 2⟩
  let e1 := ((a.hmul a).hmul alpha2).add ((b.hmul b).hmul beta2)
  let e2 := ((a.hmul b).hmul alphabeta).sub (a.hmul alphax)
  let e3 := e2.sub (b.hmul betax)
  let e4 := (two.hmul e3).add e1
  let e5 := e4.hmul weights
  (a, b, (e5.splatX.add e5.splatY).add e5.splatZ)

/-- The triple partition loop of `ClusterFit::compress4` for one
ordering. -/
def cf4Scan (weights : V4) (pw : List V4) (xsum : V4) (count iterIx : ℕ)
    (init : CFBest) : CFBest :=
  ((List.range count).foldl
    (fun (acc : V4 × CFBest) i =>
      let innerJ := (List.range' i (count + 1 - i)).foldl
        (fun (accJ : V4 × CFBest) j =>
          let part2init := if j = 0 then pw.getD 0 v4zero else v4zero
          let kmin := if j = 0 then 1 else j
          let innerK := (List.range' kmin (count + 1 - kmin)).foldl
            (fun (accK : V4 × CFBest) k =>
              let cand := cf4Candidate weights acc.1 accJ.1 accK.1 xsum
              let best := accK.2
              let best' :=
                if cand.2.2.anyLessThan best.error then
                  ⟨cand.1, cand.2.1, cand.2.2, i, j, k, iterIx⟩
                else best
              let part2' := if k < count then accK.1.add (pw.getD k v4zero) else accK.1
              (part2', best'))
            (part2init, accJ.2)
          let part1' := if j < count then accJ.1.add (pw.getD j v4zero) else accJ.1
          (part1', innerK.2))
        (v4zero, acc.2)
      (acc.1.add (pw.getD i v4zero), innerJ.2))
    (v4zero, init)).2

/-- The per-texel palette indices of a `compress4` solution: cluster
`[i, j)` gets palette index 2, `[j, k)` index 3, `[k, count)` index 1
(the source writes 3 over `[j, count)` and then 1 over `[k, count)`). -/
def buildUnordered4 (order : List ℕ) (i j k count : ℕ) : List ℕ :=
  let u := List.replicate 16 0
  let u := (List.range' i (j - i)).foldl (fun u m => u.set (order.getD m 0) 2) u
  let u := (List.range' j (count - j)).foldl (fun u m => u.set (order.getD m 0) 3) u
  (List.range' k (count - k)).foldl (fun u m => u.set (order.getD m 0) 1) u

/-- Model of `ClusterFit::compress4`. -/
def clusterFitCompress4 (cs : ColourSet) (weights : V4) (principle : V3)
    (numIterations : ℕ) (st : V4 × List ℕ) : V4 × List ℕ :=
  let init : CFBest := ⟨v4zero, v4zero, st.1, 0, 0, 0, 0⟩
  let r := cfLoop cs (fun pw xsum iterIx b => cf4Scan weights pw xsum cs.count iterIx b)
    numIterations 0 [] principle init
  let best := r.1
  if best.error.anyLessThan st.1 then
    let order := r.2.getD best.iteration []
    let unordered := buildUnordered4 order best.besti best.bestj best.bestk cs.count
    let indices := cs.remap_indices unordered
    (best.error, Colourblock.write4 best.start.toVec3 best.endv.toVec3 indices)
  else st

/-- Model of `ClusterFit`'s constructor and trait flow: channel weights
extended with a 1 in the fourth lane, one iteration unless the
iterative algorithm was chosen, principal axis from the weighted
covariance. -/
def clusterFitCompress (cs : ColourSet) (format : Format) (weights : V3)
    (iterate : Bool) : List ℕ :=
  let weights4 : V4 := ⟨weights.x, weights.y, weights.z, 1⟩
  let numIterations := if iterate then 8 else 1
  let principle := (Sym3x3.weighted_covariance cs.points cs.weights).principle_component
  (colourFitRun (decide (format = Format.Bc1)) cs.transparent
    (clusterFitCompress3 cs weights4 principle numIterations)
    (clusterFitCompress4 cs weights4 principle numIterations)
    (⟨f32Max, f32Max, f32Max, f32Max⟩, List.replicate 8 0)).2

/-! ## Format driver (`squish/src/lib.rs`) -/

/-- The colour-block half of `Format::compress_block_masked`: build the
point set, then dispatch to the single-colour fitter (exactly one
point), the range fitter (range-fit algorithm or an empty set) or the
cluster fitter. -/
def compress_colour (format : Format) (rgba : List (List ℕ)) (mask : ℕ)
    (params : Params) : List ℕ :=
  let colours := ColourSet.new rgba mask format params.weigh_colour_by_alpha
  if colours.count = 1 then singleColourFitCompress colours format
  else if params.algorithm = Algorithm.RangeFit ∨ colours.count = 0 then
    rangeFitCompress colours format params.weights
  else
    clusterFitCompress colours format params.weights
      (params.algorithm = Algorithm.IterativeClusterFit)

/-- Model of `Format::compress_block_masked`: alpha sub-block(s)
followed by the colour sub-block, as the format dictates. -/
def Format.compress_block_masked (f : Format) (rgba : List (List ℕ)) (mask : ℕ)
    (params : Params) : List ℕ :=
  match f with
  | .Bc1 => compress_colour .Bc1 rgba mask params
  | .Bc2 => Alpha.compress_bc2 rgba mask ++ compress_colour .Bc2 rgba mask params
  | .Bc3 => Alpha.compress_bc3 rgba 3 mask ++ compress_colour .Bc3 rgba mask params
  | .Bc4 => Alpha.compress_bc3 rgba 0 mask
  | .Bc5 => Alpha.compress_bc3 rgba 0 mask ++ Alpha.compress_bc3 rgba 1 mask

/-- Model of `Format::decompress_block`: decode the colour sub-block
(or an opaque black fill for BC4/5), then the alpha sub-block(s); BC4
splats the decoded channel into G and B. -/
def Format.decompress_block (f : Format) (block : List ℕ) : List (List ℕ) :=
  match f with
  | .Bc1 => Colourblock.decompress (block.take 8) true
  | .Bc2 => Alpha.decompress_bc2 (Colourblock.decompress ((block.drop 8).take 8) false) (block.take 8)
  | .Bc3 => Alpha.decompress_bc3 (Colourblock.decompress ((block.drop 8).take 8) false) 3 (block.take 8)
  | .Bc4 =>
    let rgba := Alpha.decompress_bc3 (List.replicate 16 [0, 0, 0, 255]) 0 (block.take 8)
    rgba.map (fun px => (px.set 1 (px.getD 0 0)).set 2 (px.getD 0 0))
  | .Bc5 =>
    let rgba := Alpha.decompress_bc3 (List.replicate 16 [0, 0, 0, 255]) 0 (block.take 8)
    Alpha.decompress_bc3 rgba 1 ((block.drop 8).take 8)

/-! ## Spec-side definitions and test data -/

/-- Read the little-endian `u16` at byte offset `off`. -/
def read16 (bytes : List ℕ) (off : ℕ) : ℕ :=
  bytes.getD off 0 + 256 * bytes.getD (off + 1) 0

/-- The index rewrite of the three-palette writer: exchange 0 and 1,
leave everything else fixed. -/
def swap01 (ix : ℕ) : ℕ := if ix = 0 then 1 else if ix = 1 then 0 else ix

/-- The BC1 palette as the spec words it (section 3): if
`endpoint_a > endpoint_b` or the format is not BC1, the four colours
`{A, B, (2A+B)/3, (A+2B)/3}` with alpha 255 everywhere; if the format
is BC1 and `endpoint_a ≤ endpoint_b`, `{A, B, (A+B)/2, transparent
black}` where entry 3 is RGBA `(0,0,0,0)`. -/
def specPalette (bytes : List ℕ) (isBc1 : Bool) : List (List ℕ) :=
  let a := read16 bytes 0
  let b := read16 bytes 2
  let ea := Colourblock.unpack_565 (bytes.getD 0 0) (bytes.getD 1 0)
  let eb := Colourblock.unpack_565 (bytes.getD 2 0) (bytes.getD 3 0)
  if isBc1 && decide (a ≤ b) then
    [ea, eb,
     (List.range 3).map (fun c => (ea.getD c 0 + eb.getD c 0) / 2) ++ [255],
     [0, 0, 0, 0]]
  else
    [ea, eb,
     (List.range 3).map (fun c => (2 * ea.getD c 0 + eb.getD c 0) / 3) ++ [255],
     (List.range 3).map (fun c => (ea.getD c 0 + 2 * eb.getD c 0) / 3) ++ [255]]

/-- The 7-alpha codebook as the spec words it (section 4.3 step 3): the
endpoints of the 7-range followed by the interpolants
`(6a+b)/7 .. (a+6b)/7` of `min7`/`max7`. -/
def specCodes7 (min7 max7 : ℕ) : List ℕ :=
  [min7, max7] ++
    (List.range 6).map (fun k =>
      let i := k + 1
      ((7 - i) * min7 + i * max7) / 7 % 256)

/-- Absolute value of a `Frac`. -/
def Frac.fabs (a : Frac) : Frac := ⟨(a.n.natAbs : ℤ), a.d⟩

/-- The principal-component computation as claim C9 words it: eight
power-iteration steps from `(1,1,1,0)`, each step multiplying by the
matrix and dividing by the maximum of the absolute values of the
components, returning the 3-lane projection. -/
def principleComponentClaim (s : Sym3x3) : V3 :=
  let row0 : V4 := ⟨s.a0, s.a1, s.a2, 0⟩
  let row1 : V4 := ⟨s.a1, s.a3, s.a4, 0⟩
  let row2 : V4 := ⟨s.a2, s.a4, s.a5, 0⟩
  let v := (List.range 8).foldl
    (fun v _ =>
      let w := row0.hmul v.splatX
      let w := (row1.hmul v.splatY).add w
      let w := (row2.hmul v.splatZ).add w
      let a := w.x.fabs.fmax (w.y.fabs.fmax (w.z.fabs.fmax w.w.fabs))
      V4.mk4 (w.x / a) (w.y / a) (w.z / a) (w.w / a))
    ⟨1, 1, 1, 0⟩
  v.toVec3

/-- One scalar power-iteration step as the amended claim C9 words it:
multiply the current 3-vector by the symmetric matrix (fourth lane
annihilated), then divide by the maximum of the three resulting
components, taken without absolute value (division by the maximum is
multiplication by its reciprocal). -/
def amendedStep (s : Sym3x3) (v : V3) : V3 :=
  let wx := s.a2 * v.z + (s.a1 * v.y + s.a0 * v.x)
  let wy := s.a4 * v.z + (s.a3 * v.y + s.a1 * v.x)
  let wz := s.a5 * v.z + (s.a4 * v.y + s.a2 * v.x)
  let a := wx.fmax (wy.fmax wz)
  let r := Frac.ofNat 1 / a
  ⟨wx * r, wy * r, wz * r⟩

/-- The amended-claim description of the principal-component
computation: exactly eight applications of `amendedStep` starting from
`(1,1,1)` (the fourth lane of the source's starting vector
`(1,1,1,1)` never influences the result). -/
def principleComponentAmended (s : Sym3x3) : V3 :=
  (amendedStep s)^[8] ⟨1, 1, 1⟩

/-- Component-wise value equality of two `V3`s. -/
def V3.eqv (a b : V3) : Prop := a.x.eqv b.x ∧ a.y.eqv b.y ∧ a.z.eqv b.z

instance (a b : V3) : Decidable (a.eqv b) := by
  unfold V3.eqv
  infer_instance

/-- The gray-checker luminance pattern of test vector S1
(`squish/src/test_data.rs`, `BC1_GRAY`). -/
def grayLuma : List ℕ :=
  [0xFF, 0x00, 0xFF, 0x00,
   0x00, 0x7F, 0x7F, 0xFF,
   0xFF, 0x7F, 0x7F, 0x00,
   0x00, 0xFF, 0x00, 0xFF]

/-- The decoded S1 block: the gray checker splatted to RGB with alpha
255 (`BC1_GRAY.decoded`). -/
def grayPixels : List (List ℕ) := grayLuma.map (fun l => [l, l, l, 0xFF])

/-- The encoded S1 block (`BC1_GRAY.encoded`). -/
def grayEncoded : List ℕ := [0x00, 0x00, 0xFF, 0xFF, 0x11, 0x68, 0x29, 0x44]

/-- Uniform-weight compression parameters with the given algorithm. -/
def uniParams (a : Algorithm) : Params := ⟨a, ⟨1, 1, 1⟩, false⟩

/-! ## Bounds-checked decoder (`Format::decompress_block` with every
assertion and slice/index access made explicit)

The total decoders above use defaulted list access (`getD`), mirroring
accesses the source performs on fixed-size arrays.  The checked
variants below return `none` exactly where the source would fail an
assertion, slice out of range, or index out of bounds, so that claim
C8 (decoding is total on every payload of the right length) is a
statement with content. -/

/-- Bounds-checked variant of `Colourblock.decompress`: the `assert!`
on the slice length, and every palette access `codes[offset..offset+4]`
and index-byte access, return `none` on failure. -/
def decompressChecked (bytes : List ℕ) (isBc1 : Bool) : Option (List (List ℕ)) :=
  if bytes.length = 8 then
    let codes := Colourblock.codesOf bytes isBc1
    (List.range 16).mapM (fun t => do
      let packed ← bytes.get? (4 + t / 4)
      let offset := 4 * (packed / 4 ^ (t % 4) % 4)
      (List.range 4).mapM (fun c => codes.get? (offset + c)))
  else none

/-- Bounds-checked variant of `Alpha.decompress_bc2`. -/
def decompressBc2Checked (rgba : List (List ℕ)) (bytes : List ℕ) :
    Option (List (List ℕ)) :=
  if bytes.length = 8 then
    (List.range 16).mapM (fun t => do
      let px ← rgba.get? t
      let quant ← bytes.get? (t / 2)
      let lo := quant % 16
      let hi := quant / 16 % 16 * 16
      let newA :=
        if t % 2 = 0 then lo ||| (lo <<< 4) % 256
        else hi ||| (hi <<< 4) % 256
      pure (px.set 3 newA))
  else none

/-- Bounds-checked variant of `Alpha.decompress_bc3`: the length
assertion, every index-byte access, and the 3-bit codebook lookup
`codes[index]` return `none` on failure. -/
def decompressBc3Checked (rgba : List (List ℕ)) (channel : ℕ) (bytes : List ℕ) :
    Option (List (List ℕ)) :=
  if bytes.length = 8 then
    let alpha0 := bytes.getD 0 0
    let alpha1 := bytes.getD 1 0
    let codes :=
      if alpha0 ≤ alpha1 then
        [alpha0, alpha1] ++
          (List.range 4).map (fun k =>
            let i := k + 1
            ((5 - i) * alpha0 + i * alpha1) / 5 % 256) ++ [0, 255]
      else
        [alpha0, alpha1] ++
          (List.range 6).map (fun k =>
            let i := k + 1
            ((7 - i) * alpha0 + i * alpha1) / 7 % 256)
    (List.range 16).mapM (fun t => do
      let base := 2 + 3 * (t / 8)
      let b0 ← bytes.get? base
      let b1 ← bytes.get? (base + 1)
      let b2 ← bytes.get? (base + 2)
      let value := b0 + 256 * b1 + 65536 * b2
      let px ← rgba.get? t
      let code ← codes.get? (value / 8 ^ (t % 8) % 8)
      pure (px.set channel code))
  else none

/-- Bounds-checked variant of `Format::decompress_block`: the slices
`block[..8]`, `block[8..16]` taken by the source panic when the block
is too short, so they are guarded here. -/
def decompressBlockChecked (f : Format) (block : List ℕ) :
    Option (List (List ℕ)) :=
  match f with
  | .Bc1 =>
    if 8 ≤ block.length then decompressChecked (block.take 8) true else none
  | .Bc2 =>
    if 16 ≤ block.length then do
      let rgba ← decompressChecked ((block.drop 8).take 8) false
      decompressBc2Checked rgba (block.take 8)
    else none
  | .Bc3 =>
    if 16 ≤ block.length then do
      let rgba ← decompressChecked ((block.drop 8).take 8) false
      decompressBc3Checked rgba 3 (block.take 8)
    else none
  | .Bc4 =>
    if 8 ≤ block.length then do
      let rgba ← decompressBc3Checked (List.replicate 16 [0, 0, 0, 255]) 0 (block.take 8)
      pure (rgba.map (fun px => (px.set 1 (px.getD 0 0)).set 2 (px.getD 0 0)))
    else none
  | .Bc5 =>
    if 16 ≤ block.length then do
      let rgba ← decompressBc3Checked (List.replicate 16 [0, 0, 0, 255]) 0 (block.take 8)
      decompressBc3Checked rgba 1 ((block.drop 8).take 8)
    else none

/-- A colour sub-block every texel of which decodes (as BC1) with
alpha 255: the opacity invariant maintained by every fitter on blocks
without punch-through texels. -/
def OpaqueBlock (bytes : List ℕ) : Prop :=
  bytes.length = 8 ∧
  ∀ t < 16, ((Colourblock.decompress bytes true).getD t []).getD 3 0 = 255

/-- The failing input of claim C4: a block whose alpha channel contains
0, 255 and 128, so that the 5-range (128, 133 after `fix_range`) and
the 7-range (0, 255) have different endpoints. -/
def c4Block : List (List ℕ) :=
  [[0, 0, 0, 0], [0, 0, 0, 255]] ++ List.replicate 14 [0, 0, 0, 128]

/-- The alpha channel the BC2 decoder would have to produce for the
repository's own `BC2_GRAY` test vector (`test_data.rs`,
`LINEAR_RAMP`): every decoded byte is 17 times the stored nibble. -/
def linearRamp : List ℕ :=
  [0x00, 0x11, 0x22, 0x33, 0x44, 0x55, 0x66, 0x77,
   0x88, 0x99, 0xAA, 0xBB, 0xCC, 0xDD, 0xEE, 0xFF]

/-! # Theorems -/

/-- Defaulted access into a mapped range: `((range n).map f).getD t d`
is `f t` for `t < n`. -/
theorem getD_map_range {α : Type} (f : ℕ → α) (d : α) (n t : ℕ) (h : t < n) :
    ((List.range n).map f).getD t d = f t := by
  rw [List.getD_eq_getElem?_getD, List.getElem?_map, List.getElem?_range h]
  rfl

/-- C1: for the S1 BC1 gray-checker block (luminance FF 00 FF 00 /
00 7F 7F FF / FF 7F 7F 00 / 00 FF 00 FF splatted to RGB with A = FF,
full mask), compression at BC1 with uniform channel weights produces
exactly the bytes 00 00 FF FF 11 68 29 44 under all three algorithms
(range fit, cluster fit, iterative cluster fit), and decompressing
those eight bytes at BC1 reproduces exactly the 16 decoded RGBA
texels. -/
theorem c1_s1_gray_roundtrip :
    Format.compress_block_masked .Bc1 grayPixels 0xFFFF (uniParams .RangeFit) =
        grayEncoded ∧
    Format.compress_block_masked .Bc1 grayPixels 0xFFFF (uniParams .ClusterFit) =
        grayEncoded ∧
    Format.compress_block_masked .Bc1 grayPixels 0xFFFF (uniParams .IterativeClusterFit) =
        grayEncoded ∧
    Format.decompress_block .Bc1 grayEncoded = grayPixels :=
  ⟨by decide, by decide, by decide, by decide⟩

/-- C3 (code bug): decoding the BC2 alpha bytes of the repository's own
`BC2_GRAY` test vector yields `hi` alone for every odd texel (the
`hi | (hi << 4)` of the source shifts the high nibble out of the
`u8`), so texel 1 decodes to 0x10 where the claim - and the
repository's `LINEAR_RAMP` test expectation - require
`nibble | (nibble << 4) = 0x11`. -/
theorem c3_bc2_decode_odd_texel :
    (Alpha.decompress_bc2 (List.replicate 16 [0, 0, 0, 0])
        [0x10, 0x32, 0x54, 0x76, 0x98, 0xBA, 0xDC, 0xFE]).map (fun p => p.getD 3 0) =
      [0x00, 0x10, 0x22, 0x30, 0x44, 0x50, 0x66, 0x70,
       0x88, 0x90, 0xAA, 0xB0, 0xCC, 0xD0, 0xEE, 0xF0] ∧
    (Alpha.decompress_bc2 (List.replicate 16 [0, 0, 0, 0])
        [0x10, 0x32, 0x54, 0x76, 0x98, 0xBA, 0xDC, 0xFE]).map (fun p => p.getD 3 0) ≠
      linearRamp :=
  ⟨by decide, by decide⟩

/-- C4 (code bug): on `c4Block` the adjusted ranges are
`(min5, max5, min7, max7) = (128, 133, 0, 255)`, and the 7-alpha
codebook the source fits against starts with `128, 133` (the 5-range
endpoints, which `compress_bc3` would never serialise for the 7-alpha
palette) instead of the 7-range endpoints `0, 255` required by the
claim and used by the codebook's own interpolants. -/
theorem c4_codes7_wrong_endpoints :
    Alpha.alphaRanges c4Block 3 0xFFFF = (128, 133, 0, 255) ∧
    Alpha.codes7Of 128 133 0 255 = [128, 133, 36, 72, 109, 145, 182, 218] ∧
    specCodes7 0 255 = [0, 255, 36, 72, 109, 145, 182, 218] ∧
    Alpha.codes7Of 128 133 0 255 ≠ specCodes7 0 255 :=
  ⟨by decide, by decide, by decide, by decide⟩

/-- C5 counterexample: a block written by the four-palette writer from
equal endpoints has equal packed endpoints, so the decoder's
four-point condition `endpoint_a > endpoint_b` fails and the block
decodes in three-point mode - the decoded palette mode does not match
the four-point mode used during fitting. -/
theorem c5_equal_endpoints_mode_mismatch :
    read16 (Colourblock.write4 ⟨1, 1, 1⟩ ⟨1, 1, 1⟩ (List.replicate 16 2)) 0 =
      read16 (Colourblock.write4 ⟨1, 1, 1⟩ ⟨1, 1, 1⟩ (List.replicate 16 2)) 2 ∧
    ¬ read16 (Colourblock.write4 ⟨1, 1, 1⟩ ⟨1, 1, 1⟩ (List.replicate 16 2)) 2 <
        read16 (Colourblock.write4 ⟨1, 1, 1⟩ ⟨1, 1, 1⟩ (List.replicate 16 2)) 0 :=
  ⟨by decide, by decide⟩

/-- C9 counterexample: on the symmetric matrix `diag(-2, -1, -1)` the
source's power iteration (which divides by the maximum of the signed
x, y, z lanes) returns `(256, 1, 1)`, while the procedure described by
the claim (dividing by the maximum of the absolute values, starting
from `(1,1,1,0)`) returns a different vector. -/
theorem c9_signed_normalisation_counterexample :
    ¬ V3.eqv (Sym3x3.principle_component ⟨-2, 0, 0, -1, 0, -1⟩)
      (principleComponentClaim ⟨-2, 0, 0, -1, 0, -1⟩) := by decide

/-- C9 (amended): the source's `principle_component` performs eight
power-iteration steps starting from `(1, 1, 1, 1)` (the fourth lane
never influencing the result), each step multiplying the current
vector by the covariance matrix and dividing by the maximum of the
signed x, y, z components, and returns the 3-lane projection. -/
theorem c9_power_iteration_structure (s : Sym3x3) :
    Sym3x3.principle_component s = principleComponentAmended s := by
  have key : ∀ (n : ℕ) (v : V4),
      ((List.range n).foldl
        (fun v _ =>
          let w := (⟨s.a0, s.a1, s.a2, 0⟩ : V4).hmul v.splatX
          let w := ((⟨s.a1, s.a3, s.a4, 0⟩ : V4).hmul v.splatY).add w
          let w := ((⟨s.a2, s.a4, s.a5, 0⟩ : V4).hmul v.splatZ).add w
          let a := w.x.fmax (w.y.fmax w.z)
          let av : V4 := ⟨a, a, a, a⟩
          w.hmul av.reciprocal) v).toVec3 = (amendedStep s)^[n] v.toVec3 := by
    intro n
    induction n with
    | zero => intro v; rfl
    | succ n ih =>
      intro v
      rw [List.range_succ, List.foldl_append, Function.iterate_succ_apply', ← ih v]
      rfl
  exact key 8 ⟨1, 1, 1, 1⟩

theorem ceil_div_four (w : ℕ) : ⌈(w : ℚ) / 4⌉ = ((w + 3) / 4 : ℕ) := by
  obtain ⟨q, r, hr, rfl⟩ : ∃ q r, r < 4 ∧ w = 4 * q + r :=
    ⟨w / 4, w % 4, Nat.mod_lt _ (by norm_num), (Nat.div_add_mod w 4).symm⟩
  push_cast
  rw [show ((4 * (q : ℚ) + r)) / 4 = (r / 4) + q by ring]
  rw [show ((q : ℚ)) = ((q : ℤ) : ℚ) by push_cast; ring, Int.ceil_add_int]
  have h1 : (⌈(1 : ℚ) / 4⌉ : ℤ) = 1 := by rw [Int.ceil_eq_iff]; norm_num
  have h2 : (⌈(2 : ℚ) / 4⌉ : ℤ) = 1 := by rw [Int.ceil_eq_iff]; norm_num
  have h3 : (⌈(3 : ℚ) / 4⌉ : ℤ) = 1 := by rw [Int.ceil_eq_iff]; norm_num
  interval_cases r
  · push_cast
    norm_num
    omega
  · push_cast
    rw [h1]
    omega
  · push_cast
    rw [h2]
    omega
  · push_cast
    rw [h3]
    omega

/-- C6: for every format and all widths and heights at least 1,
`compressed_size(fmt, w, h)` equals `ceil(w/4) * ceil(h/4) *
block_size(fmt)`, the per-dimension block count is `(size + 3) / 4` in
integer arithmetic, and the block size is 8 bytes for BC1 and BC4 and
16 bytes for BC2, BC3 and BC5. -/
theorem c6_compressed_size (f : Format) (w h : ℕ) (hw : 1 ≤ w) (hh : 1 ≤ h) :
    (f.compressed_size w h : ℤ) = ⌈(w : ℚ) / 4⌉ * ⌈(h : ℚ) / 4⌉ * f.block_size ∧
    num_blocks w = (w + 3) / 4 ∧
    Format.Bc1.block_size = 8 ∧ Format.Bc4.block_size = 8 ∧
    Format.Bc2.block_size = 16 ∧ Format.Bc3.block_size = 16 ∧
    Format.Bc5.block_size = 16 := by
  refine ⟨?_, rfl, rfl, rfl, rfl, rfl, rfl⟩
  rw [ceil_div_four, ceil_div_four]
  unfold Format.compressed_size num_blocks
  push_cast
  ring

/-- Witness for C6 at the concrete size 5 by 7 in format BC1. -/
theorem c6_compressed_size_witness :
    1 ≤ 5 ∧ 1 ≤ 7 ∧
    ((Format.Bc1.compressed_size 5 7 : ℤ) =
        ⌈(5 : ℚ) / 4⌉ * ⌈(7 : ℚ) / 4⌉ * Format.Bc1.block_size ∧
      num_blocks 5 = (5 + 3) / 4 ∧
      Format.Bc1.block_size = 8 ∧ Format.Bc4.block_size = 8 ∧
      Format.Bc2.block_size = 16 ∧ Format.Bc3.block_size = 16 ∧
      Format.Bc5.block_size = 16) :=
  ⟨by decide, by decide, c6_compressed_size .Bc1 5 7 (by decide) (by decide)⟩

/-- The `unpack_565` result is a 4-list of bytes with alpha 255. -/
theorem unpack_explicit (lo hi : ℕ) :
    ∃ x y z, x ≤ 255 ∧ y ≤ 255 ∧ z ≤ 255 ∧
      Colourblock.unpack_565 lo hi = [x, y, z, 255] := by
  refine ⟨_, _, _, ?_, ?_, ?_, rfl⟩ <;> omega

/-- The palette array built by the decoder, read entry-wise, is the
palette of spec section 3. -/
theorem colour_palette_entries (bytes : List ℕ) (b1 : Bool) (ind : ℕ) (hind : ind < 4) :
    (List.range 4).map (fun c => (Colourblock.codesOf bytes b1).getD (4 * ind + c) 0) =
      (specPalette bytes b1).getD ind [] := by
  obtain ⟨x, y, z, hx, hy, hz, hA⟩ := unpack_explicit (bytes.getD 0 0) (bytes.getD 1 0)
  obtain ⟨p, q, r, hp, hq, hr, hB⟩ := unpack_explicit (bytes.getD 2 0) (bytes.getD 3 0)
  unfold Colourblock.codesOf specPalette read16
  rw [hA, hB]
  simp only [Nat.zero_add]
  by_cases h : (b1 && decide (bytes.getD 0 0 + 256 * bytes.getD 1 0 ≤
      bytes.getD 2 0 + 256 * bytes.getD 3 0)) = true
  · simp only [h, if_true]
    interval_cases ind
    · rfl
    · rfl
    · show [(x + p) / 2 % 256, (y + q) / 2 % 256, (z + r) / 2 % 256, (255 : ℕ)] =
        [(x + p) / 2, (y + q) / 2, (z + r) / 2, 255]
      refine List.cons_eq_cons.mpr ⟨?_, List.cons_eq_cons.mpr ⟨?_,
        List.cons_eq_cons.mpr ⟨?_, rfl⟩⟩⟩ <;> omega
    · rfl
  · simp only [Bool.not_eq_true] at h
    simp only [h, Bool.false_eq_true, if_false]
    interval_cases ind
    · rfl
    · rfl
    · show [(2 * x + p) / 3 % 256, (2 * y + q) / 3 % 256, (2 * z + r) / 3 % 256, (255 : ℕ)] =
        [(2 * x + p) / 3, (2 * y + q) / 3, (2 * z + r) / 3, 255]
      refine List.cons_eq_cons.mpr ⟨?_, List.cons_eq_cons.mpr ⟨?_,
        List.cons_eq_cons.mpr ⟨?_, rfl⟩⟩⟩ <;> omega
    · show [(x + 2 * p) / 3 % 256, (y + 2 * q) / 3 % 256, (z + 2 * r) / 3 % 256, (255 : ℕ)] =
        [(x + 2 * p) / 3, (y + 2 * q) / 3, (z + 2 * r) / 3, 255]
      refine List.cons_eq_cons.mpr ⟨?_, List.cons_eq_cons.mpr ⟨?_,
        List.cons_eq_cons.mpr ⟨?_, rfl⟩⟩⟩ <;> omega

/-- C2: for every 8-byte colour sub-block, every texel decodes to the
palette entry selected by its 2-bit index, where the palette obeys the
disambiguation rule of spec section 3 (formalised by `specPalette`);
in particular, for BC1 with `endpoint_a ≤ endpoint_b`, a texel whose
index is 3 decodes to RGBA `(0, 0, 0, 0)`. -/
theorem c2_decompress_palette (bytes : List ℕ) (isBc1 : Bool) (t : ℕ) (ht : t < 16) :
    (Colourblock.decompress bytes isBc1).getD t [] =
      (specPalette bytes isBc1).getD (Colourblock.idxAt bytes t) [] ∧
    (isBc1 = true → read16 bytes 0 ≤ read16 bytes 2 →
      Colourblock.idxAt bytes t = 3 →
      (Colourblock.decompress bytes isBc1).getD t [] = [0, 0, 0, 0]) := by
  have hidx : Colourblock.idxAt bytes t < 4 := Nat.mod_lt _ (by norm_num)
  have hmain : (Colourblock.decompress bytes isBc1).getD t [] =
      (specPalette bytes isBc1).getD (Colourblock.idxAt bytes t) [] := by
    unfold Colourblock.decompress
    rw [getD_map_range _ _ 16 t ht]
    exact colour_palette_entries bytes isBc1 _ hidx
  refine ⟨hmain, fun hb hab h3 => ?_⟩
  subst hb
  rw [hmain, h3]
  unfold specPalette
  simp only [Bool.true_and, decide_eq_true_eq.mpr hab, if_true]
  rfl

/-- Witness for C2 at the S1 encoded block and texel 5. -/
theorem c2_decompress_palette_witness :
    (5 : ℕ) < 16 ∧
    ((Colourblock.decompress grayEncoded true).getD 5 [] =
        (specPalette grayEncoded true).getD (Colourblock.idxAt grayEncoded 5) [] ∧
      (true = true → read16 grayEncoded 0 ≤ read16 grayEncoded 2 →
        Colourblock.idxAt grayEncoded 5 = 3 →
        (Colourblock.decompress grayEncoded true).getD 5 [] = [0, 0, 0, 0])) :=
  ⟨by decide, c2_decompress_palette grayEncoded true 5 (by decide)⟩

/-- Upper bound of `pack_565`: the packed value is a `u16`. -/
theorem pack_565_le (v : V3) : Colourblock.pack_565 v ≤ 65535 := by
  unfold Colourblock.pack_565
  dsimp only
  have h1 : f32_to_i32_clamped (Frac.ofNat 31 * v.x) 31 ≤ 31 := Nat.min_le_right _ _
  have h2 : f32_to_i32_clamped (Frac.ofNat 63 * v.y) 63 ≤ 63 := Nat.min_le_right _ _
  have h3 : f32_to_i32_clamped (Frac.ofNat 31 * v.z) 31 ≤ 31 := Nat.min_le_right _ _
  omega

/-- The two endpoints written by `write_block` read back as themselves
(for `u16` values). -/
theorem read16_write_block (a b : ℕ) (l : List ℕ) (ha : a ≤ 65535) (hb : b ≤ 65535) :
    read16 (Colourblock.write_block a b l) 0 = a ∧
    read16 (Colourblock.write_block a b l) 2 = b := by
  unfold Colourblock.write_block read16
  simp only [List.getD_cons_zero, List.getD_cons_succ, List.cons_append, List.nil_append]
  omega

/-- The 2-bit indices written by `write_block` read back as the input
indices modulo 4. -/
theorem idxAt_write_block (a b : ℕ) (l : List ℕ) (t : ℕ) (ht : t < 16) :
    Colourblock.idxAt (Colourblock.write_block a b l) t = l.getD t 0 % 4 := by
  unfold Colourblock.idxAt Colourblock.write_block
  have hq : t / 4 < 4 := by omega
  have e1 : ([a % 256, a / 256 % 256, b % 256, b / 256 % 256] ++
      (List.range 4).map (fun i =>
        l.getD (4 * i) 0 % 4 + 4 * (l.getD (4 * i + 1) 0 % 4) +
          16 * (l.getD (4 * i + 2) 0 % 4) + 64 * (l.getD (4 * i + 3) 0 % 4))).getD
        (4 + t / 4) 0 =
      l.getD (4 * (t / 4)) 0 % 4 + 4 * (l.getD (4 * (t / 4) + 1) 0 % 4) +
        16 * (l.getD (4 * (t / 4) + 2) 0 % 4) + 64 * (l.getD (4 * (t / 4) + 3) 0 % 4) := by
    have h4 : 4 + t / 4 = (t / 4) + 1 + 1 + 1 + 1 := by omega
    rw [h4]
    simp only [List.cons_append, List.nil_append, List.getD_cons_succ]
    exact getD_map_range _ _ 4 (t / 4) hq
  rw [e1]
  have hmod : t % 4 < 4 := by omega
  have hsplit : t = 4 * (t / 4) + t % 4 := by omega
  rcases (by omega : t % 4 = 0 ∨ t % 4 = 1 ∨ t % 4 = 2 ∨ t % 4 = 3) with h | h | h | h <;>
    rw [show l.getD t 0 = l.getD (4 * (t / 4) + t % 4) 0 by rw [← hsplit]] <;>
    rw [h] <;>
    norm_num <;>
    omega

/-- Defaulted access through `List.map` below the length. -/
theorem getD_map_of_lt (f : ℕ → ℕ) (l : List ℕ) (t : ℕ) (h : t < l.length) :
    (l.map f).getD t 0 = f (l.getD t 0) := by
  rw [List.getD_eq_getElem?_getD, List.getElem?_map, List.getElem?_eq_getElem h,
    List.getD_eq_getElem?_getD, List.getElem?_eq_getElem h]
  rfl

/-- Defaulted access into `List.replicate`. -/
theorem getD_replicate_zero (n t : ℕ) : (List.replicate n (0 : ℕ)).getD t 0 = 0 := by
  rw [List.getD_eq_getElem?_getD, List.getElem?_replicate]
  split <;> rfl

/-- C5 (amended): a block written by the three-palette writer has
packed `endpoint_a ≤ endpoint_b`, exchanging indices 0 and 1 and
leaving 2 and 3 fixed when the endpoints had to be swapped; a block
written by the four-palette writer has packed
`endpoint_a ≥ endpoint_b`, XORs every index with 0x01 when the
endpoints had to be swapped and emits all-zero indices when the packed
endpoints collapse to equal; consequently the decoded palette mode
matches the fitted mode whenever the packed endpoints differ, and in
the collapsed case every index is 0, so every texel decodes to palette
entry 0, the shared endpoint. -/
theorem c5_writer_endpoint_ordering (s e : V3) (idx : List ℕ)
    (hlen : idx.length = 16) (hlt : ∀ t < 16, idx.getD t 0 < 4) :
    (read16 (Colourblock.write3 s e idx) 0 ≤ read16 (Colourblock.write3 s e idx) 2 ∧
      ∀ t < 16, Colourblock.idxAt (Colourblock.write3 s e idx) t =
        if Colourblock.pack_565 e < Colourblock.pack_565 s then swap01 (idx.getD t 0)
        else idx.getD t 0) ∧
    (read16 (Colourblock.write4 s e idx) 2 ≤ read16 (Colourblock.write4 s e idx) 0 ∧
      ∀ t < 16, Colourblock.idxAt (Colourblock.write4 s e idx) t =
        if Colourblock.pack_565 s < Colourblock.pack_565 e then idx.getD t 0 ^^^ 1
        else if Colourblock.pack_565 e < Colourblock.pack_565 s then idx.getD t 0
        else 0) ∧
    (read16 (Colourblock.write4 s e idx) 2 < read16 (Colourblock.write4 s e idx) 0 ∨
      ∀ t < 16, Colourblock.idxAt (Colourblock.write4 s e idx) t = 0) := by
  have hs := pack_565_le s
  have he := pack_565_le e
  have hxor : ∀ v : ℕ, v < 4 → (v ^^^ 1) % 4 = v ^^^ 1 ∧ v ^^^ 1 < 4 := by decide
  have hswap : ∀ v : ℕ, v < 4 → swap01 v % 4 = swap01 v := by decide
  have w3 : read16 (Colourblock.write3 s e idx) 0 ≤
        read16 (Colourblock.write3 s e idx) 2 ∧
      ∀ t < 16, Colourblock.idxAt (Colourblock.write3 s e idx) t =
        if Colourblock.pack_565 e < Colourblock.pack_565 s then swap01 (idx.getD t 0)
        else idx.getD t 0 := by
    unfold Colourblock.write3
    dsimp only
    by_cases h : Colourblock.pack_565 e < Colourblock.pack_565 s
    · rw [if_pos h]
      refine ⟨?_, fun t ht => ?_⟩
      · rw [(read16_write_block _ _ _ (by omega) (by omega)).1,
          (read16_write_block _ _ _ (by omega) (by omega)).2]
        omega
      · rw [idxAt_write_block _ _ _ t ht, if_pos h,
          getD_map_of_lt _ _ t (by omega)]
        exact hswap _ (hlt t ht)
    · rw [if_neg h]
      refine ⟨?_, fun t ht => ?_⟩
      · rw [(read16_write_block _ _ _ (by omega) (by omega)).1,
          (read16_write_block _ _ _ (by omega) (by omega)).2]
        omega
      · rw [idxAt_write_block _ _ _ t ht, if_neg h]
        exact Nat.mod_eq_of_lt (hlt t ht)
  have w4 : read16 (Colourblock.write4 s e idx) 2 ≤
        read16 (Colourblock.write4 s e idx) 0 ∧
      ∀ t < 16, Colourblock.idxAt (Colourblock.write4 s e idx) t =
        if Colourblock.pack_565 s < Colourblock.pack_565 e then idx.getD t 0 ^^^ 1
        else if Colourblock.pack_565 e < Colourblock.pack_565 s then idx.getD t 0
        else 0 := by
    unfold Colourblock.write4
    dsimp only
    by_cases h1 : Colourblock.pack_565 s < Colourblock.pack_565 e
    · rw [if_pos h1]
      refine ⟨?_, fun t ht => ?_⟩
      · rw [(read16_write_block _ _ _ (by omega) (by omega)).1,
          (read16_write_block _ _ _ (by omega) (by omega)).2]
        omega
      · rw [idxAt_write_block _ _ _ t ht, if_pos h1,
          getD_map_of_lt _ _ t (by omega)]
        have hb := (hxor _ (hlt t ht)).2
        omega
    · rw [if_neg h1]
      by_cases h2 : Colourblock.pack_565 e < Colourblock.pack_565 s
      · rw [if_pos h2]
        refine ⟨?_, fun t ht => ?_⟩
        · rw [(read16_write_block _ _ _ (by omega) (by omega)).1,
            (read16_write_block _ _ _ (by omega) (by omega)).2]
          omega
        · rw [idxAt_write_block _ _ _ t ht, if_neg h1, if_pos h2]
          exact Nat.mod_eq_of_lt (hlt t ht)
      · rw [if_neg h2]
        refine ⟨?_, fun t ht => ?_⟩
        · rw [(read16_write_block _ _ _ (by omega) (by omega)).1,
            (read16_write_block _ _ _ (by omega) (by omega)).2]
          omega
        · rw [idxAt_write_block _ _ _ t ht, if_neg h1, if_neg h2,
            getD_replicate_zero]
  refine ⟨w3, w4, ?_⟩
  by_cases h1 : Colourblock.pack_565 s < Colourblock.pack_565 e
  · left
    unfold Colourblock.write4
    dsimp only
    rw [if_pos h1, (read16_write_block _ _ _ (by omega) (by omega)).1,
      (read16_write_block _ _ _ (by omega) (by omega)).2]
    omega
  · by_cases h2 : Colourblock.pack_565 e < Colourblock.pack_565 s
    · left
      unfold Colourblock.write4
      dsimp only
      rw [if_neg h1, if_pos h2, (read16_write_block _ _ _ (by omega) (by omega)).1,
        (read16_write_block _ _ _ (by omega) (by omega)).2]
      omega
    · right
      intro t ht
      rw [w4.2 t ht, if_neg h1, if_neg h2]

/-- Fold congruence: equal step functions on the list's members give
equal folds. -/
theorem foldl_congr_mem {α β : Type} (l : List β) (f g : α → β → α) (init : α)
    (h : ∀ a b, b ∈ l → f a b = g a b) : l.foldl f init = l.foldl g init := by
  induction l generalizing init with
  | nil => rfl
  | cons x xs ih =>
    simp only [List.foldl_cons]
    rw [h init x (List.mem_cons_self x xs)]
    exact ih _ (fun a b hb => h a b (List.mem_cons_of_mem x hb))

/-- Search congruence: equal predicates on the list's members give
equal first hits. -/
theorem find?_congr_mem (l : List ℕ) (p q : ℕ → Bool) (h : ∀ x ∈ l, p x = q x) :
    l.find? p = l.find? q := by
  induction l with
  | nil => rfl
  | cons x xs ih =>
    rw [List.find?_cons, List.find?_cons, h x (List.mem_cons_self x xs)]
    cases q x
    · exact ih (fun y hy => h y (List.mem_cons_of_mem x hy))
    · rfl

/-- The duplicate test reads only enabled texels: inputs agreeing on
the mask give the same answer. -/
theorem dupMatch_congr (rgba rgba' : List (List ℕ)) (mask : ℕ) (fmt : Format)
    (i j : ℕ)
    (hag : ∀ k < 16, Nat.testBit mask k = true → rgba.getD k [] = rgba'.getD k [])
    (hi : i < 16) (hj : j < 16) (hmi : Nat.testBit mask i = true) :
    dupMatch rgba mask fmt i j = dupMatch rgba' mask fmt i j := by
  unfold dupMatch
  by_cases hbj : Nat.testBit mask j = true
  · rw [hag i hi hmi, hag j hj hbj]
  · have hf : Nat.testBit mask j = false := by
      revert hbj
      cases Nat.testBit mask j <;> simp
    rw [hf]
    simp

/-- `ColourSet::new` reads only enabled texels. -/
theorem colourSet_new_congr (rgba rgba' : List (List ℕ)) (mask : ℕ) (fmt : Format)
    (aw : Bool)
    (hag : ∀ k < 16, Nat.testBit mask k = true → rgba.getD k [] = rgba'.getD k []) :
    ColourSet.new rgba mask fmt aw = ColourSet.new rgba' mask fmt aw := by
  unfold ColourSet.new
  have hfold :
      (List.range 16).foldl
        (fun (st : ColourSet) i =>
          if ¬ Nat.testBit mask i then
            { st with remap := st.remap ++ [-1] }
          else if fmt = Format.Bc1 ∧ (rgba.getD i []).getD 3 0 < 128 then
            { st with remap := st.remap ++ [-1], transparent := true }
          else
            let w : Frac :=
              if aw then fq ((rgba.getD i []).getD 3 0 + 1) 256 else ⟨1, 1⟩
            match (List.range i).find? (fun j => dupMatch rgba mask fmt i j) with
            | some j =>
              let index := st.remap.getD j 0
              { st with
                weights := st.weights.set index.toNat
                  ((st.weights.getD index.toNat ⟨0, 1⟩) + w),
                remap := st.remap ++ [index] }
            | none =>
              let x := fq ((rgba.getD i []).getD 0 0) 255
              let y := fq ((rgba.getD i []).getD 1 0) 255
              let z := fq ((rgba.getD i []).getD 2 0) 255
              { st with
                points := st.points ++ [⟨x, y, z⟩],
                weights := st.weights ++ [w],
                remap := st.remap ++ [(st.count : ℤ)],
                count := st.count + 1 })
        ⟨0, [], [], [], false⟩ =
      (List.range 16).foldl
        (fun (st : ColourSet) i =>
          if ¬ Nat.testBit mask i then
            { st with remap := st.remap ++ [-1] }
          else if fmt = Format.Bc1 ∧ (rgba'.getD i []).getD 3 0 < 128 then
            { st with remap := st.remap ++ [-1], transparent := true }
          else
            let w : Frac :=
              if aw then fq ((rgba'.getD i []).getD 3 0 + 1) 256 else ⟨1, 1⟩
            match (List.range i).find? (fun j => dupMatch rgba' mask fmt i j) with
            | some j =>
              let index := st.remap.getD j 0
              { st with
                weights := st.weights.set index.toNat
                  ((st.weights.getD index.toNat ⟨0, 1⟩) + w),
                remap := st.remap ++ [index] }
            | none =>
              let x := fq ((rgba'.getD i []).getD 0 0) 255
              let y := fq ((rgba'.getD i []).getD 1 0) 255
              let z := fq ((rgba'.getD i []).getD 2 0) 255
              { st with
                points := st.points ++ [⟨x, y, z⟩],
                weights := st.weights ++ [w],
                remap := st.remap ++ [(st.count : ℤ)],
                count := st.count + 1 })
        ⟨0, [], [], [], false⟩ := by
    apply foldl_congr_mem
    intro st i hmem
    have hi : i < 16 := List.mem_range.mp hmem
    by_cases hbi : Nat.testBit mask i = true
    · have hrw := hag i hi hbi
      have hfind : (List.range i).find? (fun j => dupMatch rgba mask fmt i j) =
          (List.range i).find? (fun j => dupMatch rgba' mask fmt i j) := by
        apply find?_congr_mem
        intro j hj
        exact dupMatch_congr rgba rgba' mask fmt i j hag hi
          (by have := List.mem_range.mp hj; omega) hbi
      rw [hrw, hfind]
    · have hf : Nat.testBit mask i = false := by
        revert hbi
        cases Nat.testBit mask i <;> simp
      rw [hf]
      simp
  rw [hfold]

/-- `compress_bc2` reads only enabled texels. -/
theorem compress_bc2_congr (rgba rgba' : List (List ℕ)) (mask : ℕ)
    (hag : ∀ k < 16, Nat.testBit mask k = true → rgba.getD k [] = rgba'.getD k []) :
    Alpha.compress_bc2 rgba mask = Alpha.compress_bc2 rgba' mask := by
  unfold Alpha.compress_bc2
  apply List.map_congr_left
  intro i hmem
  have hi : i < 8 := List.mem_range.mp hmem
  dsimp only
  by_cases h1 : Nat.testBit mask (2 * i) = true
  · by_cases h2 : Nat.testBit mask (2 * i + 1) = true
    · rw [hag (2 * i) (by omega) h1, hag (2 * i + 1) (by omega) h2]
    · have hf : Nat.testBit mask (2 * i + 1) = false := by
        revert h2
        cases Nat.testBit mask (2 * i + 1) <;> simp
      rw [hag (2 * i) (by omega) h1, hf]
      simp
  · have hf : Nat.testBit mask (2 * i) = false := by
      revert h1
      cases Nat.testBit mask (2 * i) <;> simp
    rw [hf]
    by_cases h2 : Nat.testBit mask (2 * i + 1) = true
    · rw [hag (2 * i + 1) (by omega) h2]
      simp
    · have hf2 : Nat.testBit mask (2 * i + 1) = false := by
        revert h2
        cases Nat.testBit mask (2 * i + 1) <;> simp
      rw [hf2]
      simp

/-- The alpha range scan reads only enabled texels. -/
theorem alphaRanges_congr (rgba rgba' : List (List ℕ)) (channel mask : ℕ)
    (hag : ∀ k < 16, Nat.testBit mask k = true → rgba.getD k [] = rgba'.getD k []) :
    Alpha.alphaRanges rgba channel mask = Alpha.alphaRanges rgba' channel mask := by
  unfold Alpha.alphaRanges
  have hfold := foldl_congr_mem (List.range 16)
    (fun (st : ℕ × ℕ × ℕ × ℕ) i =>
      if Nat.testBit mask i then
        let value := (rgba.getD i []).getD channel 0
        let min5 := if value ≠ 0 then min st.1 value else st.1
        let max5 := if value ≠ 255 then max st.2.1 value else st.2.1
        (min5, max5, min st.2.2.1 value, max st.2.2.2 value)
      else st)
    (fun (st : ℕ × ℕ × ℕ × ℕ) i =>
      if Nat.testBit mask i then
        let value := (rgba'.getD i []).getD channel 0
        let min5 := if value ≠ 0 then min st.1 value else st.1
        let max5 := if value ≠ 255 then max st.2.1 value else st.2.1
        (min5, max5, min st.2.2.1 value, max st.2.2.2 value)
      else st)
    (255, 0, 255, 0)
    (by
      intro st i hmem
      have hi : i < 16 := List.mem_range.mp hmem
      dsimp only
      by_cases hb : Nat.testBit mask i = true
      · rw [hag i hi hb]
      · have hf : Nat.testBit mask i = false := by
          revert hb
          cases Nat.testBit mask i <;> simp
        rw [hf]
        simp)
  rw [hfold]

/-- The codebook fit reads only enabled texels. -/
theorem fit_codes_congr (rgba rgba' : List (List ℕ)) (channel mask : ℕ)
    (codes : List ℕ)
    (hag : ∀ k < 16, Nat.testBit mask k = true → rgba.getD k [] = rgba'.getD k []) :
    Alpha.fit_codes rgba channel mask codes = Alpha.fit_codes rgba' channel mask codes := by
  unfold Alpha.fit_codes
  apply foldl_congr_mem
  intro st i hmem
  have hi : i < 16 := List.mem_range.mp hmem
  dsimp only
  by_cases hb : Nat.testBit mask i = true
  · rw [hag i hi hb]
  · have hf : Nat.testBit mask i = false := by
      revert hb
      cases Nat.testBit mask i <;> simp
    rw [hf]
    simp

/-- `compress_bc3` reads only enabled texels. -/
theorem compress_bc3_congr (rgba rgba' : List (List ℕ)) (channel mask : ℕ)
    (hag : ∀ k < 16, Nat.testBit mask k = true → rgba.getD k [] = rgba'.getD k []) :
    Alpha.compress_bc3 rgba channel mask = Alpha.compress_bc3 rgba' channel mask := by
  unfold Alpha.compress_bc3
  dsimp only
  rw [alphaRanges_congr rgba rgba' channel mask hag]
  rw [fit_codes_congr rgba rgba' channel mask _ hag,
    fit_codes_congr rgba rgba' channel mask _ hag]

/-- C7: for every format, parameter choice and mask, two 16-texel
inputs that agree on all texels whose mask bit is set compress to
identical output bytes - the value of a texel whose mask bit is clear
never influences the compressed block. -/
theorem c7_masked_texels_ignored (f : Format) (rgba rgba' : List (List ℕ))
    (mask : ℕ) (params : Params)
    (hag : ∀ k < 16, Nat.testBit mask k = true → rgba.getD k [] = rgba'.getD k []) :
    f.compress_block_masked rgba mask params =
      f.compress_block_masked rgba' mask params := by
  have hcc : ∀ fmt, compress_colour fmt rgba mask params =
      compress_colour fmt rgba' mask params := by
    intro fmt
    unfold compress_colour
    rw [colourSet_new_congr rgba rgba' mask fmt params.weigh_colour_by_alpha hag]
  cases f <;>
    simp only [Format.compress_block_masked, hcc,
      compress_bc2_congr rgba rgba' mask hag,
      compress_bc3_congr rgba rgba' 3 mask hag,
      compress_bc3_congr rgba rgba' 0 mask hag,
      compress_bc3_congr rgba rgba' 1 mask hag]

/-- Witness for C7: two blocks differing only in texel 15, which the
mask 0x7FFF disables, compress to the same BC1 bytes. -/
theorem c7_masked_texels_ignored_witness :
    (∀ k < 16, Nat.testBit 0x7FFF k = true →
      (grayPixels.getD k []) = ((grayPixels.take 15 ++ [[1, 2, 3, 4]]).getD k [])) ∧
    Format.Bc1.compress_block_masked grayPixels 0x7FFF (uniParams .ClusterFit) =
      Format.Bc1.compress_block_masked (grayPixels.take 15 ++ [[1, 2, 3, 4]]) 0x7FFF
        (uniParams .ClusterFit) :=
  ⟨by decide,
    c7_masked_texels_ignored .Bc1 grayPixels (grayPixels.take 15 ++ [[1, 2, 3, 4]])
      0x7FFF (uniParams .ClusterFit) (by decide)⟩

/-- A monadic map over `Option` succeeds when every element does,
returning a list of the same length. -/
theorem mapM_option_total {α β : Type} (f : α → Option β) (l : List α)
    (h : ∀ a ∈ l, ∃ y, f a = some y) :
    ∃ out, l.mapM f = some out ∧ out.length = l.length := by
  induction l with
  | nil => exact ⟨[], rfl, rfl⟩
  | cons x xs ih =>
    obtain ⟨y, hy⟩ := h x (List.mem_cons_self x xs)
    obtain ⟨out, hout, hlen⟩ := ih (fun a ha => h a (List.mem_cons_of_mem x ha))
    refine ⟨y :: out, ?_, by simp [hlen]⟩
    rw [List.mapM_cons, hy, hout]
    rfl

/-- Indexing below the length succeeds. -/
theorem get?_total {α : Type} (l : List α) (i : ℕ) (h : i < l.length) :
    ∃ y, l.get? i = some y := by
  rw [List.get?_eq_getElem?, List.getElem?_eq_getElem h]
  exact ⟨_, rfl⟩

/-- The decoder's palette array always has 16 entries. -/
theorem codesOf_length (bytes : List ℕ) (b1 : Bool) :
    (Colourblock.codesOf bytes b1).length = 16 := by
  unfold Colourblock.codesOf Colourblock.unpack_565
  simp

/-- The checked colour decoder succeeds on every 8-byte input. -/
theorem decompressChecked_total (bytes : List ℕ) (b1 : Bool)
    (h : bytes.length = 8) :
    ∃ out, decompressChecked bytes b1 = some out ∧ out.length = 16 := by
  unfold decompressChecked
  rw [if_pos h]
  have := mapM_option_total
    (fun t => do
      let packed ← bytes.get? (4 + t / 4)
      let offset := 4 * (packed / 4 ^ (t % 4) % 4)
      (List.range 4).mapM (fun c => (Colourblock.codesOf bytes b1).get? (offset + c)))
    (List.range 16)
    (by
      intro t hmem
      have ht : t < 16 := List.mem_range.mp hmem
      dsimp only
      obtain ⟨packed, hp⟩ := get?_total bytes (4 + t / 4) (by omega)
      rw [hp]
      have hin := mapM_option_total
        (fun c => (Colourblock.codesOf bytes b1).get? (4 * (packed / 4 ^ (t % 4) % 4) + c))
        (List.range 4)
        (by
          intro c hc
          have hc4 : c < 4 := List.mem_range.mp hc
          apply get?_total
          rw [codesOf_length]
          have : packed / 4 ^ (t % 4) % 4 < 4 := Nat.mod_lt _ (by norm_num)
          omega)
      obtain ⟨out, hout, _⟩ := hin
      exact ⟨out, by rw [Option.bind_eq_bind, Option.some_bind]; exact hout⟩)
  obtain ⟨out, hout, hlen⟩ := this
  exact ⟨out, hout, by rw [hlen]; simp⟩

/-- The checked BC2 alpha decoder succeeds on every 8-byte input given
16 texels. -/
theorem decompressBc2Checked_total (rgba : List (List ℕ)) (bytes : List ℕ)
    (hr : rgba.length = 16) (h : bytes.length = 8) :
    ∃ out, decompressBc2Checked rgba bytes = some out ∧ out.length = 16 := by
  unfold decompressBc2Checked
  rw [if_pos h]
  have := mapM_option_total
    (fun t => do
      let px ← rgba.get? t
      let quant ← bytes.get? (t / 2)
      let lo := quant % 16
      let hi := quant / 16 % 16 * 16
      let newA :=
        if t % 2 = 0 then lo ||| (lo <<< 4) % 256
        else hi ||| (hi <<< 4) % 256
      pure (px.set 3 newA))
    (List.range 16)
    (by
      intro t hmem
      have ht : t < 16 := List.mem_range.mp hmem
      dsimp only
      obtain ⟨px, hpx⟩ := get?_total rgba t (by omega)
      obtain ⟨quant, hq⟩ := get?_total bytes (t / 2) (by omega)
      rw [hpx, hq]
      exact ⟨_, rfl⟩)
  obtain ⟨out, hout, hlen⟩ := this
  exact ⟨out, hout, by rw [hlen]; simp⟩

/-- The checked BC3/4/5 alpha decoder succeeds on every 8-byte input
given 16 texels. -/
theorem decompressBc3Checked_total (rgba : List (List ℕ)) (channel : ℕ)
    (bytes : List ℕ) (hr : rgba.length = 16) (h : bytes.length = 8) :
    ∃ out, decompressBc3Checked rgba channel bytes = some out ∧ out.length = 16 := by
  unfold decompressBc3Checked
  rw [if_pos h]
  have hclen : ∀ a0 a1 : ℕ,
      (if a0 ≤ a1 then
        [a0, a1] ++
          (List.range 4).map (fun k =>
            let i := k + 1
            ((5 - i) * a0 + i * a1) / 5 % 256) ++ [0, 255]
      else
        [a0, a1] ++
          (List.range 6).map (fun k =>
            let i := k + 1
            ((7 - i) * a0 + i * a1) / 7 % 256)).length = 8 := by
    intro a0 a1
    split <;> simp
  have := mapM_option_total
    (fun t => do
      let base := 2 + 3 * (t / 8)
      let b0 ← bytes.get? base
      let b1 ← bytes.get? (base + 1)
      let b2 ← bytes.get? (base + 2)
      let value := b0 + 256 * b1 + 65536 * b2
      let px ← rgba.get? t
      let code ←
        (if bytes.getD 0 0 ≤ bytes.getD 1 0 then
          [bytes.getD 0 0, bytes.getD 1 0] ++
            (List.range 4).map (fun k =>
              let i := k + 1
              ((5 - i) * bytes.getD 0 0 + i * bytes.getD 1 0) / 5 % 256) ++ [0, 255]
        else
          [bytes.getD 0 0, bytes.getD 1 0] ++
            (List.range 6).map (fun k =>
              let i := k + 1
              ((7 - i) * bytes.getD 0 0 + i * bytes.getD 1 0) / 7 % 256)).get?
          (value / 8 ^ (t % 8) % 8)
      pure (px.set channel code))
    (List.range 16)
    (by
      intro t hmem
      have ht : t < 16 := List.mem_range.mp hmem
      dsimp only
      have hbase : 2 + 3 * (t / 8) + 2 < 8 := by omega
      obtain ⟨b0, h0⟩ := get?_total bytes (2 + 3 * (t / 8)) (by omega)
      obtain ⟨b1, h1⟩ := get?_total bytes (2 + 3 * (t / 8) + 1) (by omega)
      obtain ⟨b2, h2⟩ := get?_total bytes (2 + 3 * (t / 8) + 2) (by omega)
      obtain ⟨px, hpx⟩ := get?_total rgba t (by omega)
      rw [h0, h1, h2, hpx]
      simp only [Option.bind_eq_bind, Option.some_bind]
      obtain ⟨code, hcode⟩ := get?_total
        (if bytes.getD 0 0 ≤ bytes.getD 1 0 then
          [bytes.getD 0 0, bytes.getD 1 0] ++
            (List.range 4).map (fun k =>
              let i := k + 1
              ((5 - i) * bytes.getD 0 0 + i * bytes.getD 1 0) / 5 % 256) ++ [0, 255]
        else
          [bytes.getD 0 0, bytes.getD 1 0] ++
            (List.range 6).map (fun k =>
              let i := k + 1
              ((7 - i) * bytes.getD 0 0 + i * bytes.getD 1 0) / 7 % 256))
        ((b0 + 256 * b1 + 65536 * b2) / 8 ^ (t % 8) % 8)
        (by
          rw [hclen]
          exact Nat.mod_lt _ (by norm_num))
      rw [hcode]
      simp only [Option.some_bind]
      exact ⟨_, rfl⟩)
  obtain ⟨out, hout, hlen⟩ := this
  exact ⟨out, hout, by rw [hlen]; simp⟩

/-- C8: for every format and every byte list of length
`block_size(format)`, the bounds-checked model of
`Format::decompress_block` succeeds: every assertion holds and every
slice, palette and codebook access stays in bounds, producing a
well-defined 16-texel block, for arbitrary garbage bytes. -/
theorem c8_decode_total (f : Format) (bytes : List ℕ)
    (hlen : bytes.length = f.block_size) :
    ∃ out, decompressBlockChecked f bytes = some out ∧ out.length = 16 := by
  cases f with
  | Bc1 =>
    have h8 : bytes.length = 8 := hlen
    unfold decompressBlockChecked
    rw [if_pos (show (8 : ℕ) ≤ bytes.length by omega)]
    exact decompressChecked_total (bytes.take 8) true
      (by rw [List.length_take]; omega)
  | Bc2 =>
    have h16 : bytes.length = 16 := hlen
    unfold decompressBlockChecked
    rw [if_pos (show (16 : ℕ) ≤ bytes.length by omega)]
    obtain ⟨rgba, hrgba, hrl⟩ := decompressChecked_total ((bytes.drop 8).take 8)
      false (by rw [List.length_take, List.length_drop]; omega)
    rw [hrgba]
    simp only [Option.bind_eq_bind, Option.some_bind]
    exact decompressBc2Checked_total rgba (bytes.take 8) hrl
      (by rw [List.length_take]; omega)
  | Bc3 =>
    have h16 : bytes.length = 16 := hlen
    unfold decompressBlockChecked
    rw [if_pos (show (16 : ℕ) ≤ bytes.length by omega)]
    obtain ⟨rgba, hrgba, hrl⟩ := decompressChecked_total ((bytes.drop 8).take 8)
      false (by rw [List.length_take, List.length_drop]; omega)
    rw [hrgba]
    simp only [Option.bind_eq_bind, Option.some_bind]
    rw [if_pos (show (16 : ℕ) ≤ bytes.length by omega)]
    exact decompressBc3Checked_total rgba 3 (bytes.take 8) hrl
      (by rw [List.length_take]; omega)
  | Bc4 =>
    have h8 : bytes.length = 8 := hlen
    unfold decompressBlockChecked
    rw [if_pos (show (8 : ℕ) ≤ bytes.length by omega)]
    obtain ⟨rgba, hrgba, hrl⟩ := decompressBc3Checked_total
      (List.replicate 16 [0, 0, 0, 255]) 0 (bytes.take 8) (by simp)
      (by rw [List.length_take]; omega)
    rw [hrgba]
    simp only [Option.bind_eq_bind, Option.some_bind]
    rw [if_pos (show (8 : ℕ) ≤ bytes.length by omega)]
    exact ⟨_, rfl, by simp [hrl]⟩
  | Bc5 =>
    have h16 : bytes.length = 16 := hlen
    unfold decompressBlockChecked
    rw [if_pos (show (16 : ℕ) ≤ bytes.length by omega)]
    obtain ⟨rgba, hrgba, hrl⟩ := decompressBc3Checked_total
      (List.replicate 16 [0, 0, 0, 255]) 0 (bytes.take 8) (by simp)
      (by rw [List.length_take]; omega)
    rw [hrgba]
    simp only [Option.bind_eq_bind, Option.some_bind]
    rw [if_pos (show (16 : ℕ) ≤ bytes.length by omega)]
    exact decompressBc3Checked_total rgba 1 ((bytes.drop 8).take 8) hrl
      (by rw [List.length_take, List.length_drop]; omega)

/-- Witness for C8 at a concrete 16-byte garbage payload in BC3. -/
theorem c8_decode_total_witness :
    ((List.range 16).map (fun i => (i * 37 + 11) % 256)).length =
        Format.Bc3.block_size ∧
    ∃ out, decompressBlockChecked .Bc3
        ((List.range 16).map (fun i => (i * 37 + 11) % 256)) = some out ∧
      out.length = 16 :=
  ⟨by decide, c8_decode_total .Bc3 _ (by decide)⟩

/-- Fold invariant principle. -/
theorem foldl_inv {α β : Type} (P : α → Prop) (l : List β) (f : α → β → α)
    (init : α) (h0 : P init) (hstep : ∀ a b, b ∈ l → P a → P (f a b)) :
    P (l.foldl f init) := by
  induction l generalizing init with
  | nil => exact h0
  | cons x xs ih =>
    exact ih (f init x) (hstep init x (List.mem_cons_self x xs) h0)
      (fun a b hb => hstep a b (List.mem_cons_of_mem x hb))

/-- Membership bound survives `List.set`. -/
theorem forall_mem_set {α : Type} (P : α → Prop) (l : List α) (i : ℕ) (a : α)
    (h : ∀ v ∈ l, P v) (ha : P a) : ∀ v ∈ l.set i a, P v := by
  intro v hv
  rcases List.mem_or_eq_of_mem_set hv with h' | h'
  · exact h v h'
  · exact h' ▸ ha

/-- Defaulted access respects a membership bound (for positive bounds). -/
theorem getD_lt_of_forall_mem (l : List ℕ) (c m : ℕ) (hc : 0 < c)
    (h : ∀ v ∈ l, v < c) : l.getD m 0 < c := by
  rw [List.getD_eq_getElem?_getD]
  rcases h' : l[m]? with _ | y
  · exact hc
  · exact h y (List.getElem?_mem h')

/-- Appending an element keeps earlier defaulted reads. -/
theorem getD_append_left {α : Type} (l : List α) (x d : α) (i : ℕ)
    (h : i < l.length) : (l ++ [x]).getD i d = l.getD i d :=
  List.getD_append l [x] d i h

/-- Appending an element makes it readable at the old length. -/
theorem getD_append_last {α : Type} (l : List α) (x d : α) :
    (l ++ [x]).getD l.length d = x := by
  rw [List.getD_eq_getElem?_getD, List.getElem?_append_right (Nat.le_refl _)]
  simp

/-- The blocks emitted by `write_block` are 8 bytes long. -/
theorem write_block_length (a b : ℕ) (l : List ℕ) :
    (Colourblock.write_block a b l).length = 8 := by
  unfold Colourblock.write_block
  simp

/-- The alpha channel of a decoded texel is the alpha of its palette
entry. -/
theorem decomp_alpha (bytes : List ℕ) (t : ℕ) (ht : t < 16) :
    ((Colourblock.decompress bytes true).getD t []).getD 3 0 =
      ((specPalette bytes true).getD (Colourblock.idxAt bytes t) []).getD 3 0 := by
  rw [(c2_decompress_palette bytes true t ht).1]

/-- The alpha of every palette entry of spec section 3 for BC1: 255
except entry 3 in three-point mode. -/
theorem spec_alpha (bytes : List ℕ) (ind : ℕ) (hind : ind < 4) :
    ((specPalette bytes true).getD ind []).getD 3 0 =
      if read16 bytes 0 ≤ read16 bytes 2 ∧ ind = 3 then 0 else 255 := by
  unfold specPalette
  dsimp only
  by_cases h : read16 bytes 0 ≤ read16 bytes 2
  · rw [if_pos (by simpa using h)]
    interval_cases ind
    · rw [if_neg (by omega)]
      rfl
    · rw [if_neg (by omega)]
      rfl
    · rw [if_neg (by omega)]
      rfl
    · rw [if_pos ⟨h, rfl⟩]
      rfl
  · rw [if_neg (by simpa using h), if_neg (by tauto)]
    interval_cases ind
    · rfl
    · rfl
    · rfl
    · rfl

/-- Defaulted access respects any predicate holding for the default and
all members. -/
theorem getD_pred {α : Type} (P : α → Prop) (l : List α) (d : α) (m : ℕ)
    (hd : P d) (h : ∀ v ∈ l, P v) : P (l.getD m d) := by
  rw [List.getD_eq_getElem?_getD]
  rcases h' : l[m]? with _ | y
  · exact hd
  · exact h y (List.getElem?_mem h')

/-- An invariant preserved by both passes survives the generic fitter
driver. -/
theorem colourFitRun_pres {α : Type} (b1 b2 : Bool) (c3 c4 : α → α)
    (P : α → Prop) (st : α) (h0 : P st) (h3 : ∀ s, P s → P (c3 s))
    (h4 : ∀ s, P s → P (c4 s)) : P (colourFitRun b1 b2 c3 c4 st) := by
  unfold colourFitRun
  dsimp only
  split
  · split
    · exact h4 _ (h3 _ h0)
    · exact h3 _ h0
  · exact h4 _ h0

/-- A colour sub-block whose 2-bit indices are all below 3 decodes with
full alpha everywhere, whatever the endpoint order. -/
theorem write_block_opaque_of_idx (a b : ℕ) (ha : a ≤ 65535) (hb : b ≤ 65535)
    (l : List ℕ) (hl : ∀ v ∈ l, v < 3) :
    OpaqueBlock (Colourblock.write_block a b l) := by
  refine ⟨write_block_length a b l, fun t ht => ?_⟩
  have hlt : l.getD t 0 < 3 := getD_lt_of_forall_mem l 3 t (by norm_num) hl
  rw [decomp_alpha _ t ht, idxAt_write_block a b l t ht,
    spec_alpha (Colourblock.write_block a b l) (l.getD t 0 % 4)
      (Nat.mod_lt _ (by norm_num)),
    (read16_write_block a b l ha hb).1, (read16_write_block a b l ha hb).2,
    if_neg (by omega)]

/-- A colour sub-block whose first endpoint is strictly greater decodes
with full alpha everywhere, whatever the indices. -/
theorem write_block_opaque_of_gt (a b : ℕ) (ha : a ≤ 65535) (hb : b ≤ 65535)
    (hab : b < a) (l : List ℕ) :
    OpaqueBlock (Colourblock.write_block a b l) := by
  refine ⟨write_block_length a b l, fun t ht => ?_⟩
  rw [decomp_alpha _ t ht, idxAt_write_block a b l t ht,
    spec_alpha (Colourblock.write_block a b l) (l.getD t 0 % 4)
      (Nat.mod_lt _ (by norm_num)),
    (read16_write_block a b l ha hb).1, (read16_write_block a b l ha hb).2,
    if_neg (by omega)]

/-- `write3` emits an opaque block whenever all indices are below 3. -/
theorem write3_opaque (s e : V3) (l : List ℕ) (hl : ∀ v ∈ l, v < 3) :
    OpaqueBlock (Colourblock.write3 s e l) := by
  have hs := pack_565_le s
  have he := pack_565_le e
  unfold Colourblock.write3
  dsimp only
  split
  · refine write_block_opaque_of_idx _ _ he hs _ ?_
    intro v hv
    obtain ⟨w, hw, rfl⟩ := List.mem_map.mp hv
    have := hl w hw
    split
    · norm_num
    · split
      · norm_num
      · exact this
  · exact write_block_opaque_of_idx _ _ hs he _ hl

/-- `write4` always emits an opaque block: swapped or distinct
endpoints put the larger one first, and collapsed equal endpoints force
all-zero indices. -/
theorem write4_opaque (s e : V3) (l : List ℕ) :
    OpaqueBlock (Colourblock.write4 s e l) := by
  have hs := pack_565_le s
  have he := pack_565_le e
  unfold Colourblock.write4
  dsimp only
  split
  · exact write_block_opaque_of_gt _ _ he hs (by omega) _
  · split
    · exact write_block_opaque_of_gt _ _ hs he (by omega) _
    · refine write_block_opaque_of_idx _ _ hs he _ ?_
      intro v hv
      rw [List.eq_of_mem_replicate hv]
      norm_num

/-- The all-zero initial `best_compressed` buffer decodes opaque. -/
theorem zeros_opaque : OpaqueBlock (List.replicate 8 0) :=
  ⟨by decide, by decide⟩

/-- Under a full mask, every remap entry of a block whose texels all
have alpha at least 128 is a valid point index (never `-1`). -/
theorem colourSet_remap_nonneg (rgba : List (List ℕ)) (aw : Bool)
    (ha : ∀ i < 16, 128 ≤ (rgba.getD i []).getD 3 0) :
    ∀ v ∈ (ColourSet.new rgba 65535 Format.Bc1 aw).remap, 0 ≤ v := by
  unfold ColourSet.new
  dsimp only
  refine foldl_inv (fun st : ColourSet => ∀ v ∈ st.remap, 0 ≤ v)
    (List.range 16) _ _ (by simp) ?_
  intro st i hi hinv
  have hi16 : i < 16 := List.mem_range.mp hi
  have htb : Nat.testBit 65535 i = true := by
    interval_cases i <;> decide
  rw [if_neg (not_not_intro htb),
    if_neg (fun hcon => absurd hcon.2 (not_lt.mpr (ha i hi16)))]
  rcases hf : (List.range i).find? (fun j => dupMatch rgba 65535 Format.Bc1 i j)
    with _ | j <;> dsimp only <;> intro v hv <;>
    rcases List.mem_append.mp hv with h | h
  · exact hinv v h
  · rw [List.mem_singleton.mp h]
    exact Int.natCast_nonneg st.count
  · exact hinv v h
  · rw [List.mem_singleton.mp h]
    exact getD_pred (fun v => 0 ≤ v) st.remap 0 j le_rfl hinv

/-- When no remap entry is `-1`, `remap_indices` only produces values
drawn from the fitted index list (or the default 0), so any uniform
bound on those indices carries over. -/
theorem remap_indices_lt3 (cs : ColourSet) (src : List ℕ)
    (hrem : ∀ v ∈ cs.remap, 0 ≤ v) (hsrc : ∀ v ∈ src, v < 3) :
    ∀ v ∈ cs.remap_indices src, v < 3 := by
  intro v hv
  unfold ColourSet.remap_indices at hv
  obtain ⟨i, hi, rfl⟩ := List.mem_map.mp hv
  dsimp only
  have h0 : (0 : ℤ) ≤ cs.remap.getD i 0 :=
    getD_pred (fun v => 0 ≤ v) cs.remap 0 i le_rfl hrem
  rw [if_neg (by omega)]
  exact getD_pred (fun v => v < 3) src 0 _ (by norm_num) hsrc

/-- The palette index chosen by `compute_endpoints` is 0 or 2, never
3. -/
theorem compute_endpoints_index_lt (cs : ColourSet)
    (lutR lutG lutB : ℕ → SourceEntry × SourceEntry) :
    (compute_endpoints cs lutR lutG lutB).2.2.1 < 3 := by
  unfold compute_endpoints
  dsimp only [List.foldl]
  repeat' split
  all_goals first | omega | norm_num

/-- Every per-point index produced by the range fitter's matcher is a
valid code index. -/
theorem rangeHelper_indices_lt (cs : ColourSet) (w : V3) (codes : List V3)
    (hc : 0 < codes.length) :
    ∀ v ∈ (rangeHelper cs w codes).1, v < codes.length := by
  unfold rangeHelper
  refine foldl_inv (fun st : List ℕ × Frac => ∀ v ∈ st.1, v < codes.length)
    (List.range cs.count) _ _ ?_ ?_
  · intro v hv
    rw [List.eq_of_mem_replicate hv]
    exact hc
  · intro st i _ hinv
    dsimp only
    refine forall_mem_set _ _ _ _ hinv ?_
    refine foldl_inv (fun best : Frac × ℕ => best.2 < codes.length)
      (List.range codes.length) _ _ hc ?_
    intro best j hj _
    dsimp only
    split
    · exact List.mem_range.mp hj
    · assumption

/-- The unordered index list of a `compress3` solution only holds
values 0, 1 and 2. -/
theorem buildUnordered3_lt (order : List ℕ) (i j count : ℕ) :
    ∀ v ∈ buildUnordered3 order i j count, v < 3 := by
  unfold buildUnordered3
  dsimp only
  refine foldl_inv (fun u => ∀ v ∈ u, v < 3) _ _ _ ?_ ?_
  · refine foldl_inv (fun u => ∀ v ∈ u, v < 3) _ _ _ ?_ ?_
    · intro v hv
      rw [List.eq_of_mem_replicate hv]
      norm_num
    · intro u m _ hinv
      exact forall_mem_set _ _ _ _ hinv (by norm_num)
  · intro u m _ hinv
    exact forall_mem_set _ _ _ _ hinv (by norm_num)

/-- The single-colour fitter emits an opaque block when no remap entry
is `-1`. -/
theorem singleColourFitCompress_opaque (cs : ColourSet)
    (hrem : ∀ v ∈ cs.remap, 0 ≤ v) :
    OpaqueBlock (singleColourFitCompress cs Format.Bc1) := by
  unfold singleColourFitCompress
  dsimp only
  refine colourFitRun_pres _ _ _ _ (fun st : ℕ × List ℕ => OpaqueBlock st.2) _
    zeros_opaque ?_ ?_
  · intro s hs
    dsimp only
    split
    · refine write3_opaque _ _ _ (remap_indices_lt3 cs _ hrem ?_)
      intro v hv
      rw [List.eq_of_mem_replicate hv]
      exact compute_endpoints_index_lt cs lookup_5_3 lookup_6_3 lookup_5_3
    · exact hs
  · intro s hs
    dsimp only
    split
    · exact write4_opaque _ _ _
    · exact hs

/-- The range fitter emits an opaque block when no remap entry is
`-1`. -/
theorem rangeFitCompress_opaque (cs : ColourSet) (w : V3)
    (hrem : ∀ v ∈ cs.remap, 0 ≤ v) :
    OpaqueBlock (rangeFitCompress cs Format.Bc1 w) := by
  unfold rangeFitCompress
  dsimp only
  refine colourFitRun_pres _ _ _ _ (fun st : Frac × List ℕ => OpaqueBlock st.2) _
    zeros_opaque ?_ ?_
  · intro s hs
    dsimp only
    split
    · refine write3_opaque _ _ _ (remap_indices_lt3 cs _ hrem ?_)
      intro v hv
      simpa using rangeHelper_indices_lt cs w _ (by norm_num) v hv
    · exact hs
  · intro s hs
    dsimp only
    split
    · exact write4_opaque _ _ _
    · exact hs

/-- The three-palette cluster pass preserves opacity of the running
best block when no remap entry is `-1`. -/
theorem clusterFitCompress3_opaque (cs : ColourSet) (w : V4) (p : V3)
    (n : ℕ) (st : V4 × List ℕ) (hrem : ∀ v ∈ cs.remap, 0 ≤ v)
    (hst : OpaqueBlock st.2) :
    OpaqueBlock (clusterFitCompress3 cs w p n st).2 := by
  unfold clusterFitCompress3
  dsimp only
  split
  · exact write3_opaque _ _ _
      (remap_indices_lt3 cs _ hrem (buildUnordered3_lt _ _ _ _))
  · exact hst

/-- The cluster fitter emits an opaque block when no remap entry is
`-1`. -/
theorem clusterFitCompress_opaque (cs : ColourSet) (w : V3) (it : Bool)
    (hrem : ∀ v ∈ cs.remap, 0 ≤ v) :
    OpaqueBlock (clusterFitCompress cs Format.Bc1 w it) := by
  unfold clusterFitCompress
  dsimp only
  refine colourFitRun_pres _ _ _ _ (fun st : V4 × List ℕ => OpaqueBlock st.2) _
    zeros_opaque ?_ ?_
  · intro s hs
    exact clusterFitCompress3_opaque cs _ _ _ s hrem hs
  · intro s hs
    unfold clusterFitCompress4
    dsimp only
    repeat' split
    all_goals first | exact write4_opaque _ _ _ | exact hs

/-- Whatever fitter the parameters select, a fully enabled block of
texels with alpha at least 128 compresses (as BC1) to an opaque
block. -/
theorem compress_colour_opaque (rgba : List (List ℕ)) (params : Params)
    (ha : ∀ i < 16, 128 ≤ (rgba.getD i []).getD 3 0) :
    OpaqueBlock (compress_colour Format.Bc1 rgba 65535 params) := by
  unfold compress_colour
  dsimp only
  have hrem := colourSet_remap_nonneg rgba params.weigh_colour_by_alpha ha
  split
  · exact singleColourFitCompress_opaque _ hrem
  · split
    · exact rangeFitCompress_opaque _ _ hrem
    · exact clusterFitCompress_opaque _ _ _ hrem

/-- C10: for every 16-texel RGBA block whose texels all have alpha at
least 128, under the full validity mask `0xFFFF` and for every
algorithm and parameter choice, decompressing the BC1 block produced by
`compress_block_masked` yields 16 texels that all decode with alpha
255: an opaque block never encodes to punch-through transparency. -/
theorem c10_opaque_roundtrip (rgba : List (List ℕ)) (params : Params)
    (ha : ∀ i < 16, 128 ≤ (rgba.getD i []).getD 3 0) :
    ∀ t < 16,
      ((Format.decompress_block Format.Bc1
          (Format.compress_block_masked Format.Bc1 rgba 65535 params)).getD t
        []).getD 3 0 = 255 := by
  intro t ht
  have hop : OpaqueBlock (Format.compress_block_masked Format.Bc1 rgba 65535 params) :=
    compress_colour_opaque rgba params ha
  show ((Colourblock.decompress
      ((Format.compress_block_masked Format.Bc1 rgba 65535 params).take 8)
      true).getD t []).getD 3 0 = 255
  rw [List.take_of_length_le (le_of_eq hop.1)]
  exact hop.2 t ht

/-- Witness for C10: the S1 gray block (all alphas 255), range-fit
parameters. -/
theorem c10_opaque_roundtrip_witness :
    (∀ i < 16, 128 ≤ (grayPixels.getD i []).getD 3 0) ∧
    ∀ t < 16,
      ((Format.decompress_block Format.Bc1
          (Format.compress_block_masked Format.Bc1 grayPixels 65535
            (uniParams Algorithm.RangeFit))).getD t []).getD 3 0 = 255 :=
  ⟨by decide, c10_opaque_roundtrip grayPixels (uniParams Algorithm.RangeFit) (by decide)⟩

/-- Witness for C5: endpoints black and white, all indices 1. -/
theorem c5_writer_endpoint_ordering_witness :
    (List.replicate 16 1 : List ℕ).length = 16 ∧
    (∀ t < 16, (List.replicate 16 1 : List ℕ).getD t 0 < 4) ∧
    ((read16 (Colourblock.write3 v3zero ⟨1, 1, 1⟩ (List.replicate 16 1)) 0 ≤
        read16 (Colourblock.write3 v3zero ⟨1, 1, 1⟩ (List.replicate 16 1)) 2 ∧
      ∀ t < 16,
        Colourblock.idxAt (Colourblock.write3 v3zero ⟨1, 1, 1⟩ (List.replicate 16 1)) t =
          if Colourblock.pack_565 ⟨1, 1, 1⟩ < Colourblock.pack_565 v3zero then
            swap01 ((List.replicate 16 1 : List ℕ).getD t 0)
          else (List.replicate 16 1 : List ℕ).getD t 0) ∧
    (read16 (Colourblock.write4 v3zero ⟨1, 1, 1⟩ (List.replicate 16 1)) 2 ≤
        read16 (Colourblock.write4 v3zero ⟨1, 1, 1⟩ (List.replicate 16 1)) 0 ∧
      ∀ t < 16,
        Colourblock.idxAt (Colourblock.write4 v3zero ⟨1, 1, 1⟩ (List.replicate 16 1)) t =
          if Colourblock.pack_565 v3zero < Colourblock.pack_565 ⟨1, 1, 1⟩ then
            (List.replicate 16 1 : List ℕ).getD t 0 ^^^ 1
          else if Colourblock.pack_565 ⟨1, 1, 1⟩ < Colourblock.pack_565 v3zero then
            (List.replicate 16 1 : List ℕ).getD t 0
          else 0) ∧
    (read16 (Colourblock.write4 v3zero ⟨1, 1, 1⟩ (List.replicate 16 1)) 2 <
        read16 (Colourblock.write4 v3zero ⟨1, 1, 1⟩ (List.replicate 16 1)) 0 ∨
      ∀ t < 16,
        Colourblock.idxAt (Colourblock.write4 v3zero ⟨1, 1, 1⟩ (List.replicate 16 1)) t = 0)) :=
  ⟨by decide, by decide,
    c5_writer_endpoint_ordering v3zero ⟨1, 1, 1⟩ (List.replicate 16 1)
      (by decide) (by decide)⟩
